import Mathlib

/-!
Shallow embedding of the muon-track reconstruction core of
`sbndcode/Commissioning/MuonTrackProducer_module.cc`.

Modelling conventions used throughout:

* A working point ("hit") inside a bucket is a `List ℤ` mirroring the
  source's `vector<int>` entries `{hit_wire, hit_peakT, i}`; a cleared
  element (`v.clear()` in C++) is the empty list `[]`, exactly as the
  source uses emptiness to mark consumed points.
* Machine `int` arithmetic is modelled by `ℤ` (no value in this module
  approaches 2^31 on the inputs the module constructs).
* The double-precision trigonometric kernels of the source
  (`cos(j*PI/accu_w)`, `sin(...)` with `PI = 3.14159265`) appear in two
  places: the accumulator row index `rho` and the corridor prediction
  `y_val`.  They are abstracted as explicit function parameters
  `rhoFn : ℤ → ℤ → ℕ → ℤ` and `yFn : ℤ → ℤ → ℤ → ℤ` of the embedding;
  the real-valued formulas they implement are stated separately
  (`RhoSpec`) and used where a claim depends on their values.  All
  control flow, vote bookkeeping and mutation is embedded concretely.
* `TRandom3 rndgen; rndgen.Uniform(count)` (a freshly default-seeded
  generator, local to each `Hough` call) is modelled by a stream
  `rng : ℕ → ℕ`; the sampled index is `rng count % count`, which ranges
  over `[0, count)` exactly as `int(Uniform(count))` does.
* The geometry service (`WireIDsIntersect`, `WireEndPoints`) is an
  out-of-scope collaborator; it is modelled by oracles
  `geomI, geomFix : ℤ → ℤ → Option P3` keyed by the two hit indices the
  source uses to look the wires up.
* Fields named `rowLog`, `readLog`, `clearedSeeds`, `consumed` are proof
  instrumentation only: they record, respectively, every accumulator row
  index the code dereferences (`adata[r][j]`), every `data` position the
  corridor walk reads, every seed index cleared for missing the vote
  threshold, and every position consumed by the walk.  They influence no
  computed value.
-/

namespace MuonTrackSpec

/-- A bucket entry `{hit_wire, hit_peakT, i}`; `[]` means cleared. -/
abbrev Pt := List ℤ

/-- 3D point (`geo::Point_t`); coordinates idealised as `ℚ`. -/
structure P3 where
  x : ℚ
  y : ℚ
  z : ℚ
deriving DecidableEq

/-- `geo::Point_t::Mag2()`. -/
def P3.mag2 (p : P3) : ℚ := p.x * p.x + p.y * p.y + p.z * p.z

/-- Number of theta bins: `const int accu_w = 180`. -/
def accuW : ℕ := 180

/-- `const int x_c = (w/2)` with `w = 2000`. -/
def xC : ℤ := 1000

/-- `const int y_c = (h/2)` with `h = 3500`. -/
def yC : ℤ := 1750

/-- Half-height of the accumulator: `adata = &accu[(accu_h-1)/2]` with
`accu_h = h + w + 1 = 5501`, so a row access `adata[r]` is in bounds iff
`-2750 ≤ r ≤ 2750`. -/
def accuHalf : ℤ := 2750

/-- Parameters and oracles of one `Hough` call. -/
structure HCfg where
  rhoFn : ℤ → ℤ → ℕ → ℤ
  yFn : ℤ → ℤ → ℤ → ℤ
  rng : ℕ → ℕ
  threshold : ℤ
  max_gap : ℤ
  range : ℤ
  save_hits : Bool

/-- State of the main point loop of `Hough`. -/
structure HState where
  coords : List Pt
  data : List Pt
  accu : ℤ → ℕ → ℤ
  deaccu : List (ℤ × ℤ)
  outlines : List (List ℤ)
  outhits : List (List ℤ)
  rowLog : List ℤ
  readLog : List ℤ
  clearedSeeds : List ℕ
  consumed : List ℕ

/-- Result of the vote loop (`for (int j=0; j<accu_w; j++) ...`):
updated accumulator, running maximum and its `(rho, theta)`, and the
instrumented list of row indices dereferenced. -/
structure VoteOut where
  accu : ℤ → ℕ → ℤ
  maxv : ℤ
  rho : ℤ
  theta : ℤ
  rows : List ℤ

/-- One vote-loop step per theta bin `j`:
`int r = round(...); int val = ++(adata[r][j]); if (max_val < val) ...`.
`theta = j*180/accu_w` is kept verbatim (`accu_w = 180`). -/
def voteGo (rhoFn : ℤ → ℤ → ℕ → ℤ) (x y : ℤ) : List ℕ → VoteOut → VoteOut
  | [], s => s
  | j :: js, s =>
    let r := rhoFn x y j
    let accu' : ℤ → ℕ → ℤ := fun r' j' =>
      if r' = r ∧ j' = j then s.accu r' j' + 1 else s.accu r' j'
    let val := accu' r j
    let s' := { s with accu := accu', rows := s.rows ++ [r] }
    if s.maxv < val then
      voteGo rhoFn x y js
        { s' with maxv := val, rho := r, theta := (j : ℤ) * 180 / 180 }
    else voteGo rhoFn x y js s'

/-- The full vote loop; `max_val` starts at `threshold - 1`. -/
def votePass (rhoFn : ℤ → ℤ → ℕ → ℤ) (threshold x y : ℤ)
    (accu : ℤ → ℕ → ℤ) : VoteOut :=
  voteGo rhoFn x y (List.range accuW)
    { accu := accu, maxv := threshold - 1, rho := 0, theta := 0, rows := [] }

/-- State threaded through one direction of the corridor walk. -/
structure WalkSt where
  endpoint : List ℤ
  coords : List Pt
  data : List Pt
  lines_idx : List ℤ
  readLog : List ℤ
  consumed : List ℕ

/-- One direction (`k`) of the corridor walk (`while (gap < max_gap)`),
with `dir = true` for `i++` and `false` for `i--`.  The fuel argument
strictly exceeds the number of steps the walk can take before hitting a
data-set edge, so it is never exhausted on a run of the embedded code. -/
def walkDir (cfg : HCfg) (idx : ℕ) (rho theta : ℤ) (dir : Bool) :
    ℕ → ℤ → ℤ → WalkSt → WalkSt
  | 0, _, _, s => s
  | fuel + 1, i, gap, s =>
    if gap < cfg.max_gap then
      let i' := if dir then i + 1 else i - 1
      let pos : ℤ := (idx : ℤ) + i'
      if pos = (s.data.length : ℤ) ∨ pos < 0 then s
      else
        let s1 := { s with readLog := s.readLog ++ [pos] }
        let p := s1.data.getD pos.toNat []
        if p = [] then walkDir cfg idx rho theta dir fuel i' gap s1
        else
          let x1 := p.getD 0 0
          let y1 := p.getD 1 0
          let wire_idx := p.getD 2 0
          if s1.endpoint.getD 0 0 ≠ 0 ∧ 30 < |s1.endpoint.getD 0 0 - x1| then s1
          else
            let y_val := cfg.yFn rho theta x1
            if |y_val - y1| ≤ cfg.range then
              walkDir cfg idx rho theta dir fuel i' 0
                { endpoint := [x1, y1, wire_idx, pos],
                  coords := s1.coords.set pos.toNat [],
                  data := s1.data.set pos.toNat [],
                  lines_idx :=
                    s1.lines_idx ++ if cfg.save_hits then [wire_idx] else [],
                  readLog := s1.readLog,
                  consumed := s1.consumed ++ [pos.toNat] }
            else walkDir cfg idx rho theta dir fuel i' (gap + 1) s1
    else s

/-- The two corridor walks of one accepted candidate (`for (int k=0;
k<2; k++)`): first `k = 0` (upward), then `k = 1` (downward) continuing
on the state the first walk left. -/
def walkBoth (cfg : HCfg) (idx : ℕ) (rho theta : ℤ) (coords data : List Pt) :
    WalkSt × WalkSt :=
  let w0 := walkDir cfg idx rho theta true (data.length + 1) 0 0
    { endpoint := [0, 0, 0, 0], coords := coords, data := data,
      lines_idx := [], readLog := [], consumed := [] }
  let w1 := walkDir cfg idx rho theta false (w0.data.length + 1) 0 0
    { endpoint := [0, 0, 0, 0], coords := w0.coords, data := w0.data,
      lines_idx := w0.lines_idx, readLog := w0.readLog,
      consumed := w0.consumed }
  (w0, w1)

/-- Result of the un-vote pass over the de-accumulator. -/
structure UnvoteOut where
  deaccu : List (ℤ × ℤ)
  accu : ℤ → ℕ → ℤ
  rows : List ℤ

/-- Subtract one vote in every theta bin for point `(x1, y1)`:
`for (int m=0; m<accu_w; m++) { ... (adata[r][m])--; }`. -/
def unvoteSub (rhoFn : ℤ → ℤ → ℕ → ℤ) (x1 y1 : ℤ)
    (accu : ℤ → ℕ → ℤ) : (ℤ → ℕ → ℤ) × List ℤ :=
  (List.range accuW).foldl
    (fun q m =>
      let r := rhoFn x1 y1 m
      (fun r' j' => if r' = r ∧ j' = m then q.1 r' j' - 1 else q.1 r' j',
       q.2 ++ [r]))
    (accu, [])

/-- The de-accumulator loop (`for (int n = deaccu.size()-1; n>=0; n--)`):
points within `range` of the accepted line lose their votes and are
erased.  The source iterates downward erasing in place, which is
processing the last element first; `foldr` does exactly that. -/
def unvotePass (rhoFn : ℤ → ℤ → ℕ → ℤ) (yFn : ℤ → ℤ → ℤ → ℤ)
    (range rho theta : ℤ) (deaccu : List (ℤ × ℤ))
    (accu : ℤ → ℕ → ℤ) : UnvoteOut :=
  deaccu.foldr
    (fun q s =>
      let y_val := yFn rho theta q.1
      if y_val - range ≤ q.2 ∧ q.2 ≤ y_val + range then
        let sub := unvoteSub rhoFn q.1 q.2 s.accu
        { s with accu := sub.1, rows := s.rows ++ sub.2 }
      else { s with deaccu := q :: s.deaccu })
    { deaccu := [], accu := accu, rows := [] }

/-- The main point loop of `Hough` (`for ( ; count>0; count--)`). -/
def houghLoop (cfg : HCfg) : ℕ → HState → HState
  | 0, st => st
  | c + 1, st =>
    let count := c + 1
    let idx := cfg.rng count % count
    if st.coords.getD idx [] = [] then houghLoop cfg c st
    else
      let p := st.coords.getD idx []
      let x := p.getD 0 0
      let y := p.getD 1 0
      let st1 := { st with deaccu := st.deaccu ++ [(x, y)] }
      let v := votePass cfg.rhoFn cfg.threshold x y st1.accu
      let st2 := { st1 with accu := v.accu, rowLog := st1.rowLog ++ v.rows }
      if v.maxv < cfg.threshold then
        houghLoop cfg c
          { st2 with coords := st2.coords.set idx [],
                     clearedSeeds := st2.clearedSeeds ++ [idx] }
      else
        let w := walkBoth cfg idx v.rho v.theta st2.coords st2.data
        let w0 := w.1
        let w1 := w.2
        let u := unvotePass cfg.rhoFn cfg.yFn cfg.range v.rho v.theta
          st2.deaccu st2.accu
        let st3 :=
          { st2 with coords := w1.coords, data := w1.data,
                     deaccu := u.deaccu, accu := u.accu,
                     rowLog := st2.rowLog ++ u.rows,
                     readLog := st2.readLog ++ w1.readLog,
                     consumed := st2.consumed ++ w1.consumed }
        let x0e := w0.endpoint.getD 0 0
        let y0e := w0.endpoint.getD 1 0
        let x1e := w1.endpoint.getD 0 0
        let y1e := w1.endpoint.getD 1 0
        if (x0e = 0 ∧ y0e = 0) ∨ (x1e = 0 ∧ y1e = 0) then houghLoop cfg c st3
        else
          let outline := [x0e, y0e, x1e, y1e,
                          w0.endpoint.getD 2 0, w1.endpoint.getD 2 0,
                          w0.endpoint.getD 3 0, w1.endpoint.getD 3 0,
                          v.rho, v.theta]
          houghLoop cfg c
            { st3 with outlines := st3.outlines ++ [outline],
                       outhits := st3.outhits ++
                         if cfg.save_hits then [w1.lines_idx] else [] }

/-- Count of satisfied similarity conditions for endpoints `k` of line
`i` and `l` of line `j` (merge pass, `int counter = 0; ...`). -/
def mergeCounter (li lj : List ℤ) (k l : ℕ) : ℕ :=
  let xik := li.getD (2 * k) 0
  let xjl := lj.getD (2 * l) 0
  let yik := li.getD (2 * k + 1) 0
  let yjl := lj.getD (2 * l + 1) 0
  let rhoi := li.getD 8 0
  let rhoj := lj.getD 8 0
  let thetai := li.getD 9 0
  let thetaj := lj.getD 9 0
  (if xik < xjl + 100 ∧ xjl - 100 < xik then 1 else 0) +
  (if yik < yjl + 100 ∧ yjl - 100 < yik then 1 else 0) +
  (if rhoi < rhoj + 30 ∧ rhoj - 30 < rhoi then 1 else 0) +
  (if thetai < thetaj + 20 ∧ thetaj - 20 < thetai then 1 else 0)

/-- First `(k, l)` combination, in the source's loop order, whose
similarity counter reaches 3. -/
def findKL (li lj : List ℤ) : Option (ℕ × ℕ) :=
  if 3 ≤ mergeCounter li lj 0 0 then some (0, 0)
  else if 3 ≤ mergeCounter li lj 0 1 then some (0, 1)
  else if 3 ≤ mergeCounter li lj 1 0 then some (1, 0)
  else if 3 ≤ mergeCounter li lj 1 1 then some (1, 1)
  else none

/-- The endpoint rewrite of line `j` the source performs on a merge
(the nested `if(k==0){ if(l==0){...} ... }` block). -/
def applyMerge (li lj : List ℤ) (k l : ℕ) : List ℤ :=
  if k = 0 then
    if l = 0 then (lj.set 2 (li.getD 0 0)).set 3 (li.getD 1 0)
    else (lj.set 0 (li.getD 0 0)).set 1 (li.getD 1 0)
  else
    if l = 0 then (lj.set 2 (li.getD 2 0)).set 3 (li.getD 3 0)
    else (lj.set 0 (li.getD 2 0)).set 1 (li.getD 3 0)

/-- Effect of one accepted merge: rewrite line `j`, void line `i`, and
(if hits are tracked) append `i`'s member indices to `j`'s and clear
`i`'s. -/
def mergeApplyStep (save : Bool) (i j : ℕ) (kl : ℕ × ℕ)
    (st : List (List ℤ) × List (List ℤ)) :
    List (List ℤ) × List (List ℤ) :=
  let oi := st.1.getD i []
  let oj := st.1.getD j []
  let o' := (st.1.set j (applyMerge oi oj kl.1 kl.2)).set i []
  let h' :=
    if save then (st.2.set j (st.2.getD j [] ++ st.2.getD i [])).set i []
    else st.2
  (o', h')

/-- Inner loop of the merge pass (`for j = i+1 ... && same == false`). -/
def mergeJ (save : Bool) (i n : ℕ) :
    ℕ → ℕ → List (List ℤ) × List (List ℤ) → List (List ℤ) × List (List ℤ)
  | 0, _, st => st
  | fuel + 1, j, st =>
    if j < n then
      match findKL (st.1.getD i []) (st.1.getD j []) with
      | some kl => mergeApplyStep save i j kl st
      | none => mergeJ save i n fuel (j + 1) st
    else st

/-- Outer loop of the merge pass (`for i = 0 ...`). -/
def mergeI (save : Bool) (n : ℕ) :
    ℕ → ℕ → List (List ℤ) × List (List ℤ) → List (List ℤ) × List (List ℤ)
  | 0, _, st => st
  | fuel + 1, i, st =>
    if i < n then mergeI save n fuel (i + 1) (mergeJ save i n n (i + 1) st)
    else st

/-- The merge pass over the collected `outlines` / `outhit_idx`. -/
def mergePass (save : Bool) (st : List (List ℤ) × List (List ℤ)) :
    List (List ℤ) × List (List ℤ) :=
  mergeI save st.1.length st.1.length 0 st

/-- The final length/span filter of `Hough`.  In the `muon_length = 0`
regime the source compares `sqrt((x1-x0)^2+(y1-y0)^2) > min_length` in
floating point; over the reals this is equivalent to
`min_length < 0 ∨ min_length^2 < (x1-x0)^2 + (y1-y0)^2`, which is the
exact form used here. -/
def filterPass (min_length muon_length : ℤ) (save : Bool)
    (outlines outhits : List (List ℤ)) :
    List (List ℤ) × List (List ℤ) :=
  (List.range outlines.length).foldl
    (fun acc i =>
      let o := outlines.getD i []
      if o = [] then acc
      else
        let x0 := o.getD 0 0
        let y0 := o.getD 1 0
        let x1 := o.getD 2 0
        let y1 := o.getD 3 0
        if muon_length ≠ 0 then
          if muon_length < |y0 - y1| then
            (acc.1 ++ [o], acc.2 ++ if save then [outhits.getD i []] else [])
          else acc
        else
          if min_length < 0 ∨ min_length ^ 2 < (x1 - x0) ^ 2 + (y1 - y0) ^ 2 then
            (acc.1 ++ [o], acc.2 ++ if save then [outhits.getD i []] else [])
          else acc)
    ([], [])

/-- Observable results of one `Hough` call, plus instrumentation. -/
structure HoughResult where
  lines : List (List ℤ)
  hit_idx : List (List ℤ)
  coordsAfter : List Pt
  rowLog : List ℤ
  readLog : List ℤ
  clearedSeeds : List ℕ
  consumed : List ℕ

/-- `MuonTrackProducer::Hough`.  The `coords` parameter is received by
value in the source; `coordsAfter` is the final state of the local copy.
The unused `nentry` argument of the source is omitted. -/
def Hough (rhoFn : ℤ → ℤ → ℕ → ℤ) (yFn : ℤ → ℤ → ℤ → ℤ) (rng : ℕ → ℕ)
    (coords : List Pt) (param : List ℤ) (save_hits : Bool) : HoughResult :=
  let cfg : HCfg :=
    { rhoFn := rhoFn, yFn := yFn, rng := rng,
      threshold := param.getD 0 0, max_gap := param.getD 1 0,
      range := param.getD 2 0, save_hits := save_hits }
  let min_length := param.getD 3 0
  let muon_length := param.getD 4 0
  let st0 : HState :=
    { coords := coords, data := coords, accu := fun _ _ => 0, deaccu := [],
      outlines := [], outhits := [], rowLog := [], readLog := [],
      clearedSeeds := [], consumed := [] }
  let st := houghLoop cfg coords.length st0
  let merged := mergePass save_hits (st.outlines, st.outhits)
  let filtered := filterPass min_length muon_length save_hits merged.1 merged.2
  { lines := filtered.1, hit_idx := filtered.2, coordsAfter := st.coords,
    rowLog := st.rowLog, readLog := st.readLog,
    clearedSeeds := st.clearedSeeds, consumed := st.consumed }

/-- The value of the caller's bucket variable after a call
`Hough(bucket, ...)`: the source declares the parameter
`vector<vector<int>> coords` by value (MuonTrackProducer_module.cc:284),
so the call leaves the caller's vector exactly as it was. -/
def HoughCallerBucketAfter (_rhoFn : ℤ → ℤ → ℕ → ℤ) (_yFn : ℤ → ℤ → ℤ → ℤ)
    (_rng : ℕ → ℕ) (coords : List Pt) (_param : List ℤ) (_save_hits : Bool) :
    List Pt :=
  coords

/-- One raw hit, as `produce` reads it (`WireID().Wire`, `PeakTime()`,
`WireID().Plane`, `WireID().TPC`, all truncated to `int`). -/
structure Hit where
  wire : ℤ
  peakT : ℤ
  plane : ℤ
  tpc : ℤ
deriving DecidableEq

/-- Collection-plane buckets (`hit_02`, `hit_12`). -/
structure ColBuckets where
  hit_02 : List Pt
  hit_12 : List Pt
deriving DecidableEq

/-- The collection-plane fill loop of `produce` (plane 2, `peakT > 0`;
TPC 0 goes to `hit_02`, anything else to `hit_12`). -/
def fillCollectionGo : ℕ → List Hit → ColBuckets
  | _, [] => ⟨[], []⟩
  | i, h :: hs =>
    let rest := fillCollectionGo (i + 1) hs
    if h.plane = 2 ∧ h.peakT > 0 then
      if h.tpc = 0 then ⟨[h.wire, h.peakT, (i : ℤ)] :: rest.hit_02, rest.hit_12⟩
      else ⟨rest.hit_02, [h.wire, h.peakT, (i : ℤ)] :: rest.hit_12⟩
    else rest

/-- Collection-plane bucket builder. -/
def fillCollection (hitlist : List Hit) : ColBuckets :=
  fillCollectionGo 0 hitlist

/-- Induction-plane buckets (`hit_00`, `hit_01`, `hit_10`, `hit_11`). -/
structure IndBuckets where
  hit_00 : List Pt
  hit_01 : List Pt
  hit_10 : List Pt
  hit_11 : List Pt
deriving DecidableEq

/-- The induction-plane fill loop of `produce` (lines 203-219): for each
hit, `if (muon_in_tpc0) {...} else if (muon_in_tpc1) {...}`. -/
def fillInductionGo (m0 m1 : Bool) : ℕ → List Hit → IndBuckets
  | _, [] => ⟨[], [], [], []⟩
  | i, h :: hs =>
    let rest := fillInductionGo m0 m1 (i + 1) hs
    let v : Pt := [h.wire, h.peakT, (i : ℤ)]
    if m0 then
      if h.plane = 0 ∧ h.tpc = 0 ∧ h.peakT > 0 then
        ⟨v :: rest.hit_00, rest.hit_01, rest.hit_10, rest.hit_11⟩
      else if h.plane = 1 ∧ h.tpc = 0 ∧ h.peakT > 0 then
        ⟨rest.hit_00, v :: rest.hit_01, rest.hit_10, rest.hit_11⟩
      else rest
    else if m1 then
      if h.plane = 0 ∧ h.tpc = 1 ∧ h.peakT > 0 then
        ⟨rest.hit_00, rest.hit_01, v :: rest.hit_10, rest.hit_11⟩
      else if h.plane = 1 ∧ h.tpc = 1 ∧ h.peakT > 0 then
        ⟨rest.hit_00, rest.hit_01, rest.hit_10, v :: rest.hit_11⟩
      else rest
    else rest

/-- Induction-plane bucket builder (run by `produce` only when a muon
was found in at least one TPC). -/
def fillInduction (hitlist : List Hit) (m0 m1 : Bool) : IndBuckets :=
  fillInductionGo m0 m1 0 hitlist

/-- The bucket contents claim C4 predicts for a secondary
(induction-plane) bucket of a given plane and TPC: all hits of that
plane and TPC with a positive time sample, paired with their source
index.  Stated from the spec's words for comparison with
`fillInduction`. -/
def claimedSecondaryBucketGo (plane tpc : ℤ) : ℕ → List Hit → List Pt
  | _, [] => []
  | i, h :: hs =>
    let rest := claimedSecondaryBucketGo plane tpc (i + 1) hs
    if h.plane = plane ∧ h.tpc = tpc ∧ h.peakT > 0 then
      [h.wire, h.peakT, (i : ℤ)] :: rest
    else rest

/-- See `claimedSecondaryBucketGo`. -/
def claimedSecondaryBucket (plane tpc : ℤ) (hitlist : List Hit) : List Pt :=
  claimedSecondaryBucketGo plane tpc 0 hitlist

/-- Accumulated per-event muon candidate vectors
(`muon_endpoints`, `muon_hitpeakT`, `muon_hit_idx`). -/
structure FEAcc where
  muon_endpoints : List (P3 × P3)
  muon_hitpeakT : List (List ℤ)
  muon_hit_idx : List (List ℤ)

/-- Resolve one 3D endpoint: `WireIDsIntersect` (oracle `geomI`), with
the hardcoded `FixEndpoints` fallback (oracle `geomFix`); if both fail
the default-constructed `geo::Point_t` (the origin) remains. -/
def resolveEndpoint (geomI geomFix : ℤ → ℤ → Option P3) (wc wi : ℤ) : P3 :=
  match geomI wc wi with
  | some p => p
  | none =>
    match geomFix wc wi with
    | some p => p
    | none => ⟨0, 0, 0⟩

/-- One candidate test of `FindEndpoints`: time-order both lines, check
the two time-endpoint matches, resolve both 3D endpoints, and demand
both have nonzero squared magnitude. -/
def feTry (geomI geomFix : ℤ → ℤ → Option P3) (range : ℤ)
    (li lj : List ℤ) : Option (P3 × P3 × ℤ × ℤ) :=
  let order_col := li.getD 1 0 < li.getD 3 0
  let peakT0_col := if order_col then li.getD 1 0 else li.getD 3 0
  let peakT1_col := if order_col then li.getD 3 0 else li.getD 1 0
  let wire0_col := if order_col then li.getD 4 0 else li.getD 5 0
  let wire1_col := if order_col then li.getD 5 0 else li.getD 4 0
  let order_ind := lj.getD 1 0 < lj.getD 3 0
  let peakT0_ind := if order_ind then lj.getD 1 0 else lj.getD 3 0
  let peakT1_ind := if order_ind then lj.getD 3 0 else lj.getD 1 0
  let wire0_ind := if order_ind then lj.getD 4 0 else lj.getD 5 0
  let wire1_ind := if order_ind then lj.getD 5 0 else lj.getD 4 0
  if |peakT0_col - peakT0_ind| < range ∧ |peakT1_col - peakT1_ind| < range then
    let endpoint1 := resolveEndpoint geomI geomFix wire0_col wire0_ind
    let endpoint2 := resolveEndpoint geomI geomFix wire1_col wire1_ind
    if endpoint1.mag2 ≠ 0 ∧ endpoint2.mag2 ≠ 0 then
      some (endpoint1, endpoint2, peakT0_col, peakT1_col)
    else none
  else none

/-- The outer `i` loop of `FindEndpoints` over the collection lines.
The third component of the state is instrumentation: the list of
collection-line indices that emitted a pair. -/
def feGo (geomI geomFix : ℤ → ℤ → Option P3) (range : ℤ)
    (lines_ind hit_idxP : List (List ℤ)) :
    ℕ → ℕ → List (List ℤ) × FEAcc × List ℕ → List (List ℤ) × FEAcc × List ℕ
  | 0, _, st => st
  | fuel + 1, i, st =>
    let li := st.1.getD i []
    if li = [] then feGo geomI geomFix range lines_ind hit_idxP fuel (i + 1) st
    else
      match lines_ind.findSome? (feTry geomI geomFix range li) with
      | some q =>
        feGo geomI geomFix range lines_ind hit_idxP fuel (i + 1)
          (st.1.set i [],
           { muon_endpoints := st.2.1.muon_endpoints ++ [(q.1, q.2.1)],
             muon_hitpeakT := st.2.1.muon_hitpeakT ++ [[q.2.2.1, q.2.2.2]],
             muon_hit_idx := st.2.1.muon_hit_idx ++ [hit_idxP.getD i []] },
           st.2.2 ++ [i])
      | none => feGo geomI geomFix range lines_ind hit_idxP fuel (i + 1) st

/-- `MuonTrackProducer::FindEndpoints`.  `lines_col` is passed by
reference in the source (matched lines are cleared in place); the
updated list is returned here.  Returns `(lines_col', accumulators,
emitted-indices instrumentation)`. -/
def FindEndpoints (geomI geomFix : ℤ → ℤ → Option P3) (range : ℤ)
    (lines_col lines_ind hit_idxP : List (List ℤ)) (acc : FEAcc) :
    List (List ℤ) × FEAcc × List ℕ :=
  if lines_ind = [] then (lines_col, acc, [])
  else feGo geomI geomFix range lines_ind hit_idxP
    lines_col.length 0 (lines_col, acc, [])

/-- `MuonTrackProducer::SortEndpoints` classification of one endpoint
pair.  Note that the source copies `endpoint1`/`endpoint2` out of the
vector by value (line 621), so the `SetX` calls in its branches modify
only local copies; the classification is the only observable effect. -/
def classifyPair (e1 e2 : P3) (dt : ℤ) : ℤ :=
  if dt > 2400 then 0
  else
    let end1_edge := e1.y > 198 ∨ e1.y < -198 ∨ e1.z > 503 ∨ e1.z < 6
    let end2_edge := e2.y > 198 ∨ e2.y < -198 ∨ e2.z > 503 ∨ e2.z < 6
    if ¬end1_edge ∧ end2_edge then 1
    else if end1_edge ∧ ¬end2_edge then 2
    else if (e1.y > 198 ∧ e2.y < -198) ∨ (e1.y < -198 ∧ e2.y > 198) then 3
    else if (e1.z > 503 ∧ e2.z < 6) ∨ (e1.z < 6 ∧ e2.z > 503) then 4
    else 5

/-- `MuonTrackProducer::SortEndpoints`: the produced `muon_type` list.
The endpoint vector is left unmodified (see `classifyPair`). -/
def SortEndpoints (eps : List (P3 × P3)) (pk : List (List ℤ)) : List ℤ :=
  (List.range eps.length).map fun i =>
    classifyPair (eps.getD i (⟨0, 0, 0⟩, ⟨0, 0, 0⟩)).1
      (eps.getD i (⟨0, 0, 0⟩, ⟨0, 0, 0⟩)).2
      ((pk.getD i []).getD 1 0 - (pk.getD i []).getD 0 0)

/-- `MuonTrackProducer::FindTrajectories`.  `atan2(a, b) * 180 / PI` in
degrees is the oracle `atanFn`; `dx = dt*0.5*0.16` idealised to exact
rationals. -/
def FindTrajectories (atanFn : ℚ → ℚ → ℚ) (eps : List (P3 × P3))
    (pk : List (List ℤ)) : List (ℚ × ℚ) :=
  (List.range eps.length).map fun i =>
    let pair := eps.getD i (⟨0, 0, 0⟩, ⟨0, 0, 0⟩)
    let dt := (pk.getD i []).getD 1 0 - (pk.getD i []).getD 0 0
    let dx : ℚ := (dt : ℚ) * (1 / 2) * (16 / 100)
    let dy : ℚ := pair.2.y - pair.1.y
    let dz : ℚ := pair.2.z - pair.1.z
    (atanFn dx dz, atanFn dy dz)

/-- `MuonTrackProducer::Findt0`. -/
def Findt0 (pk : List (List ℤ)) (types : List ℤ) : List ℚ :=
  (List.range pk.length).map fun i =>
    if types.getD i 0 = 0 ∨ types.getD i 0 = 1 then
      (((pk.getD i []).getD 0 0 : ℚ) - 500) * (1 / 2)
    else if types.getD i 0 = 2 then
      (((pk.getD i []).getD 1 0 : ℚ) - 3000) * (1 / 2)
    else -500

/-- The final `sbnd::comm::MuonTrack` record. -/
structure Track where
  t0_us : ℚ
  x1_pos : ℚ
  y1_pos : ℚ
  z1_pos : ℚ
  x2_pos : ℚ
  y2_pos : ℚ
  z2_pos : ℚ
  theta_xz : ℚ
  theta_yz : ℚ
  tpc : ℤ
  type : ℤ
deriving DecidableEq

/-- The track assembly loop of `produce` (lines 241-273).  An
association record `(h, t)` models `util::CreateAssn(*this, evt,
*muon_tracks, hitlist[hit_i], *muon_tracks_assn)`: it links the hit at
position `h` of the event hit list to the track at position `t` of the
output (CreateAssn associates the most recently pushed track). -/
def assembleTracks (keep : List ℤ) (eps : List (P3 × P3)) (types : List ℤ)
    (t0s : List ℚ) (trajs : List (ℚ × ℚ)) (hitidx : List (List ℤ)) :
    List Track × List (ℕ × ℕ) :=
  (List.range eps.length).foldl
    (fun acc i =>
      let track_type := types.getD i 0
      let track_hit_idx := hitidx.getD i []
      let keep_track := keep.foldl (fun b t => if track_type = t then true else b) false
      if keep_track then
        let e1 := (eps.getD i (⟨0, 0, 0⟩, ⟨0, 0, 0⟩)).1
        let e2 := (eps.getD i (⟨0, 0, 0⟩, ⟨0, 0, 0⟩)).2
        let tr : Track :=
          { t0_us := t0s.getD i 0,
            x1_pos := e1.x, y1_pos := e1.y, z1_pos := e1.z,
            x2_pos := e2.x, y2_pos := e2.y, z2_pos := e2.z,
            theta_xz := (trajs.getD i (0, 0)).1,
            theta_yz := (trajs.getD i (0, 0)).2,
            tpc := if e1.x < 0 then 0 else 1,
            type := track_type }
        let tracks' := acc.1 ++ [tr]
        (tracks',
         acc.2 ++ (List.range track_hit_idx.length).map
           fun hit_i => (hit_i, tracks'.length - 1))
      else acc)
    ([], [])

/-- The classification / assembly tail of `produce` (lines 236-273):
`SortEndpoints`, `FindTrajectories`, `Findt0`, then the assembly loop. -/
def classifyAndAssemble (keep : List ℤ) (atanFn : ℚ → ℚ → ℚ) (acc : FEAcc) :
    List Track × List (ℕ × ℕ) :=
  let types := SortEndpoints acc.muon_endpoints acc.muon_hitpeakT
  let trajs := FindTrajectories atanFn acc.muon_endpoints acc.muon_hitpeakT
  let t0s := Findt0 acc.muon_hitpeakT types
  assembleTracks keep acc.muon_endpoints types t0s trajs acc.muon_hit_idx

/-- fcl configuration of the module. -/
structure Cfg where
  HoughThreshold : ℤ
  HoughMaxGap : ℤ
  HoughRange : ℤ
  HoughMinLength : ℤ
  HoughMuonLength : ℤ
  EndpointRange : ℤ
  KeepMuonTypes : List ℤ

/-- External collaborators of `produce`, abstracted as oracles. -/
structure Oracles where
  rhoFn : ℤ → ℤ → ℕ → ℤ
  yFn : ℤ → ℤ → ℤ → ℤ
  rng : ℕ → ℕ
  geomI : ℤ → ℤ → Option P3
  geomFix : ℤ → ℤ → Option P3
  atanFn : ℚ → ℚ → ℚ

/-- `MuonTrackProducer::produce`.  `hitSource = none` models a failed
`getByLabel` (which sets `nhits = 0`, identical to an empty hit list).
Returns the two data products put into the event: the track collection
and the hit-track association collection. -/
def produceF (cfg : Cfg) (or : Oracles) (hitSource : Option (List Hit)) :
    List Track × List (ℕ × ℕ) :=
  let hitlist := hitSource.getD []
  let cb := fillCollection hitlist
  let param := [cfg.HoughThreshold, cfg.HoughMaxGap, cfg.HoughRange,
                cfg.HoughMinLength, cfg.HoughMuonLength]
  let r02 := Hough or.rhoFn or.yFn or.rng cb.hit_02 param true
  let r12 := Hough or.rhoFn or.yFn or.rng cb.hit_12 param true
  let m0 := !r02.lines.isEmpty
  let m1 := !r12.lines.isEmpty
  if m0 || m1 then
    let ib := fillInduction hitlist m0 m1
    let acc0 : FEAcc := ⟨[], [], []⟩
    let s0 :=
      if m0 then
        let l00 := (Hough or.rhoFn or.yFn or.rng ib.hit_00 param false).lines
        let l01 := (Hough or.rhoFn or.yFn or.rng ib.hit_01 param false).lines
        let f1 := FindEndpoints or.geomI or.geomFix cfg.EndpointRange
          r02.lines l00 r02.hit_idx acc0
        let f2 := FindEndpoints or.geomI or.geomFix cfg.EndpointRange
          f1.1 l01 r02.hit_idx f1.2.1
        f2
      else (r02.lines, acc0, [])
    let s1 :=
      if m1 then
        let l10 := (Hough or.rhoFn or.yFn or.rng ib.hit_10 param false).lines
        let l11 := (Hough or.rhoFn or.yFn or.rng ib.hit_11 param false).lines
        let g1 := FindEndpoints or.geomI or.geomFix cfg.EndpointRange
          r12.lines l10 r12.hit_idx s0.2.1
        let g2 := FindEndpoints or.geomI or.geomFix cfg.EndpointRange
          g1.1 l11 r12.hit_idx g1.2.1
        g2
      else (r12.lines, s0.2.1, [])
    let acc := s1.2.1
    if !acc.muon_endpoints.isEmpty then
      classifyAndAssemble cfg.KeepMuonTypes or.atanFn acc
    else ([], [])
  else ([], [])

/-- The merge the spec's sentence describes for an accepted combination
`(k, l)`: "replace the matched endpoint of segment j with the *other*
endpoint of segment i".  Here endpoint `l` of `j` is the matched one and
endpoint `1 - k` of `i` is the other endpoint of `i`.  Stated from the
spec's words, to be compared with `applyMerge` (which is translated from
the source). -/
def mergeSpecClaim (li lj : List ℤ) (k l : ℕ) : List ℤ :=
  let tgt := if l = 0 then 0 else 2
  let src := if k = 0 then 2 else 0
  (lj.set tgt (li.getD src 0)).set (tgt + 1) (li.getD (src + 1) 0)

/-- The rational constant `3.14159265`, the source's `PI` macro. -/
def PIcQ : ℚ := 314159265 / 100000000

/-- `RhoSpec rhoFn` states that `rhoFn` computes the source's
accumulator row index
`round((x-x_c)*cos(j*PI/accu_w) + (y-y_c)*sin(j*PI/accu_w))`
with real-valued trigonometry and the source's `PI` constant. -/
def RhoSpec (rhoFn : ℤ → ℤ → ℕ → ℤ) : Prop :=
  ∀ x y : ℤ, ∀ j : ℕ,
    rhoFn x y j =
      round (((x : ℝ) - (xC : ℝ)) * Real.cos ((j : ℝ) * (PIcQ : ℝ) / 180) +
             ((y : ℝ) - (yC : ℝ)) * Real.sin ((j : ℝ) * (PIcQ : ℝ) / 180))

end MuonTrackSpec

namespace MuonTrackSpec

/-! ### General list helpers -/

theorem getD_set_self {α : Type _} (l : List α) (n : ℕ) (v d : α)
    (h : n < l.length) : (l.set n v).getD n d = v := by
  simp [List.getD_eq_getElem?_getD, List.getElem?_set_self, h]

theorem getD_set_ne {α : Type _} (l : List α) (m n : ℕ) (v d : α)
    (h : m ≠ n) : (l.set m v).getD n d = l.getD n d := by
  simp [List.getD_eq_getElem?_getD, List.getElem?_set_ne, h]

theorem getD_set_nil (l : List Pt) (m n : ℕ)
    (h : l.getD n [] = []) : (l.set m []).getD n [] = [] := by
  rcases eq_or_ne m n with rfl | hne
  · rcases Nat.lt_or_ge m l.length with hlt | hge
    · rw [getD_set_self _ _ _ _ hlt]
    · rw [List.set_eq_of_length_le hge, h]
  · rw [getD_set_ne _ _ _ _ _ hne, h]

theorem getD_set_nil_self (l : List Pt) (m : ℕ) :
    (l.set m []).getD m [] = [] := by
  rcases Nat.lt_or_ge m l.length with hlt | hge
  · rw [getD_set_self _ _ _ _ hlt]
  · rw [List.set_eq_of_length_le hge]
    exact List.getD_eq_default _ _ (by simpa using hge)

theorem getD_mem_of_ne_nil (l : List Pt) (n : ℕ) (h : l.getD n [] ≠ []) :
    l.getD n [] ∈ l := by
  rcases Nat.lt_or_ge n l.length with hlt | hge
  · rw [List.getD_eq_getElem l [] hlt]
    exact List.getElem_mem hlt
  · exact absurd (List.getD_eq_default _ _ hge) h

end MuonTrackSpec

namespace MuonTrackSpec

/-! ### Claims C1, C2: the final assembly of `produce` -/

/-- Claim C1.  For the endpoint pair `((1,2,3), (50,10,20))` with time
pair `(100, 3100)` (so `dt = 3000 > 2400`), the classifier does assign
type 0 (DualBoundaryCrosser), but the emitted track's later endpoint
keeps `x2_pos = 50`: the `endpoint2.SetX(0)` of `SortEndpoints` acts on
a local copy of the point and never reaches the stored endpoints, so the
claimed zeroing of the later endpoint's depth coordinate does not happen
in the final output record. -/
theorem c1_dual_crosser_depth_not_zeroed :
    ∀ atanFn : ℚ → ℚ → ℚ,
      SortEndpoints [(⟨1, 2, 3⟩, ⟨50, 10, 20⟩)] [[100, 3100]] = [0] ∧
      (classifyAndAssemble [0, 1, 2, 3, 4, 5] atanFn
          ⟨[(⟨1, 2, 3⟩, ⟨50, 10, 20⟩)], [[100, 3100]], [[7]]⟩).1.map Track.x2_pos
        = [50] ∧ (50 : ℚ) ≠ 0 := by
  intro atanFn
  refine ⟨by decide, rfl, by norm_num⟩

/-- Claim C2.  With one kept track whose member-index list is `[5]`, the
association loop produces the record `(0, 0)` — it links the track to
the hit at position `hit_i = 0` of the event hit list (the loop counter)
instead of the hit at the member's `sourceIndex` 5: the source writes
`hitlist[hit_i]` instead of `hitlist[track_hit_idx[hit_i]]`.  The claim
predicts the single association `(5, 0)`. -/
theorem c2_assns_use_loop_counter :
    (assembleTracks [0] [(⟨1, 2, 3⟩, ⟨4, 5, 6⟩)] [0] [0] [(0, 0)] [[5]]).2
      = [(0, 0)] ∧
    [((0 : ℕ), (0 : ℕ))] ≠ [((5 : ℕ), (0 : ℕ))] := by
  exact ⟨rfl, by decide⟩

/-! ### Claim C4: secondary-bucket population -/

/-- Counterexample to claim C4.  A single induction-plane hit of TPC 1
(`plane = 0, tpc = 1, peakT = 5 > 0`) with primary lines found in BOTH
TPCs (`m0 = m1 = true`): the claim says the TPC-1 secondary bucket
`hit_10` is filled with this valid hit, but the `else if` of the fill
loop gives TPC 0 priority and leaves `hit_10` empty. -/
theorem c4_counterexample :
    (fillInduction [⟨3, 5, 0, 1⟩] true true).hit_10 = [] ∧
    claimedSecondaryBucket 0 1 [⟨3, 5, 0, 1⟩] = [[3, 5, 0]] ∧
    ([] : List Pt) ≠ [[3, 5, 0]] := by
  decide

/-- Claim C4, amended.  The TPC-0 secondary buckets are filled with
their valid hits exactly when a primary line was found in TPC 0; the
TPC-1 secondary buckets are filled exactly when a primary line was found
in TPC 1 AND none was found in TPC 0 (the fill loop's `else if` skips
TPC 1 whenever TPC 0 had a line); all other buckets stay empty. -/
theorem c4_amended (hitlist : List Hit) (m0 m1 : Bool) :
    fillInduction hitlist m0 m1 =
      ⟨if m0 then claimedSecondaryBucket 0 0 hitlist else [],
       if m0 then claimedSecondaryBucket 1 0 hitlist else [],
       if !m0 && m1 then claimedSecondaryBucket 0 1 hitlist else [],
       if !m0 && m1 then claimedSecondaryBucket 1 1 hitlist else []⟩ := by
  have go : ∀ (i : ℕ) (hs : List Hit),
      fillInductionGo m0 m1 i hs =
        ⟨if m0 then claimedSecondaryBucketGo 0 0 i hs else [],
         if m0 then claimedSecondaryBucketGo 1 0 i hs else [],
         if !m0 && m1 then claimedSecondaryBucketGo 0 1 i hs else [],
         if !m0 && m1 then claimedSecondaryBucketGo 1 1 i hs else []⟩ := by
    intro i hs
    induction hs generalizing i with
    | nil => cases m0 <;> cases m1 <;> rfl
    | cons h hs ih =>
      cases m0 <;> cases m1 <;>
        simp only [fillInductionGo, claimedSecondaryBucketGo, ih,
          Bool.not_true, Bool.not_false, Bool.false_and, Bool.true_and,
          if_true, if_false, Bool.false_eq_true, reduceIte] <;>
        split_ifs <;> simp_all
  exact go 0 hitlist

end MuonTrackSpec

namespace MuonTrackSpec

/-! ### Claims C5, C10: the merge pass -/


theorem findKL_bounds {li lj : List ℤ} {k l : ℕ}
    (h : findKL li lj = some (k, l)) :
    (k = 0 ∨ k = 1) ∧ (l = 0 ∨ l = 1) := by
  unfold findKL at h
  split_ifs at h <;>
    first
      | exact Option.noConfusion h
      | (simp only [Option.some.injEq, Prod.mk.injEq] at h
         obtain ⟨rfl, rfl⟩ := h
         simp)

theorem applyMerge_00 (li lj : List ℤ) (hlen : lj.length = 10) :
    (applyMerge li lj 0 0).getD 0 0 = lj.getD 0 0 ∧
    (applyMerge li lj 0 0).getD 1 0 = lj.getD 1 0 ∧
    (applyMerge li lj 0 0).getD 2 0 = li.getD 0 0 ∧
    (applyMerge li lj 0 0).getD 3 0 = li.getD 1 0 := by
  unfold applyMerge
  rw [if_pos rfl, if_pos rfl]
  refine ⟨?_, ?_, ?_, ?_⟩
  · rw [getD_set_ne _ _ _ _ _ (by norm_num), getD_set_ne _ _ _ _ _ (by norm_num)]
  · rw [getD_set_ne _ _ _ _ _ (by norm_num), getD_set_ne _ _ _ _ _ (by norm_num)]
  · rw [getD_set_ne _ _ _ _ _ (by norm_num), getD_set_self _ _ _ _ (by omega)]
  · rw [getD_set_self _ _ _ _ (by simp [hlen])]

theorem applyMerge_01 (li lj : List ℤ) (hlen : lj.length = 10) :
    (applyMerge li lj 0 1).getD 2 0 = lj.getD 2 0 ∧
    (applyMerge li lj 0 1).getD 3 0 = lj.getD 3 0 ∧
    (applyMerge li lj 0 1).getD 0 0 = li.getD 0 0 ∧
    (applyMerge li lj 0 1).getD 1 0 = li.getD 1 0 := by
  unfold applyMerge
  rw [if_pos rfl, if_neg one_ne_zero]
  refine ⟨?_, ?_, ?_, ?_⟩
  · rw [getD_set_ne _ _ _ _ _ (by norm_num), getD_set_ne _ _ _ _ _ (by norm_num)]
  · rw [getD_set_ne _ _ _ _ _ (by norm_num), getD_set_ne _ _ _ _ _ (by norm_num)]
  · rw [getD_set_ne _ _ _ _ _ (by norm_num), getD_set_self _ _ _ _ (by omega)]
  · rw [getD_set_self _ _ _ _ (by simp [hlen])]

theorem applyMerge_10 (li lj : List ℤ) (hlen : lj.length = 10) :
    (applyMerge li lj 1 0).getD 0 0 = lj.getD 0 0 ∧
    (applyMerge li lj 1 0).getD 1 0 = lj.getD 1 0 ∧
    (applyMerge li lj 1 0).getD 2 0 = li.getD 2 0 ∧
    (applyMerge li lj 1 0).getD 3 0 = li.getD 3 0 := by
  unfold applyMerge
  rw [if_neg one_ne_zero, if_pos rfl]
  refine ⟨?_, ?_, ?_, ?_⟩
  · rw [getD_set_ne _ _ _ _ _ (by norm_num), getD_set_ne _ _ _ _ _ (by norm_num)]
  · rw [getD_set_ne _ _ _ _ _ (by norm_num), getD_set_ne _ _ _ _ _ (by norm_num)]
  · rw [getD_set_ne _ _ _ _ _ (by norm_num), getD_set_self _ _ _ _ (by omega)]
  · rw [getD_set_self _ _ _ _ (by simp [hlen])]

theorem applyMerge_11 (li lj : List ℤ) (hlen : lj.length = 10) :
    (applyMerge li lj 1 1).getD 2 0 = lj.getD 2 0 ∧
    (applyMerge li lj 1 1).getD 3 0 = lj.getD 3 0 ∧
    (applyMerge li lj 1 1).getD 0 0 = li.getD 2 0 ∧
    (applyMerge li lj 1 1).getD 1 0 = li.getD 3 0 := by
  unfold applyMerge
  rw [if_neg one_ne_zero, if_neg one_ne_zero]
  refine ⟨?_, ?_, ?_, ?_⟩
  · rw [getD_set_ne _ _ _ _ _ (by norm_num), getD_set_ne _ _ _ _ _ (by norm_num)]
  · rw [getD_set_ne _ _ _ _ _ (by norm_num), getD_set_ne _ _ _ _ _ (by norm_num)]
  · rw [getD_set_ne _ _ _ _ _ (by norm_num), getD_set_self _ _ _ _ (by omega)]
  · rw [getD_set_self _ _ _ _ (by simp [hlen])]

theorem applyMerge_spec (li lj : List ℤ) (k l : ℕ)
    (hk : k = 0 ∨ k = 1) (hl : l = 0 ∨ l = 1) (hlen : lj.length = 10) :
    (applyMerge li lj k l).getD (2 * l) 0 = lj.getD (2 * l) 0 ∧
    (applyMerge li lj k l).getD (2 * l + 1) 0 = lj.getD (2 * l + 1) 0 ∧
    (applyMerge li lj k l).getD (2 * (1 - l)) 0 = li.getD (2 * k) 0 ∧
    (applyMerge li lj k l).getD (2 * (1 - l) + 1) 0 = li.getD (2 * k + 1) 0 := by
  rcases hk with rfl | rfl <;> rcases hl with rfl | rfl
  · simpa using applyMerge_00 li lj hlen
  · simpa using applyMerge_01 li lj hlen
  · simpa using applyMerge_10 li lj hlen
  · simpa using applyMerge_11 li lj hlen

/-- Counterexample to claim C5.  Two segments whose endpoints 0 match in
all four similarity conditions (`findKL = some (0,0)`).  The merge pass
leaves segment 1's matched endpoint `(12, 22)` in place and overwrites
its *other* endpoint with segment 0's *matched* endpoint `(10, 20)` —
not, as the claim states, the matched endpoint replaced by segment 0's
other endpoint `(500, 600)` (which would give `mergeSpecClaim`). -/
theorem c5_counterexample :
    findKL [10, 20, 500, 600, 41, 42, 43, 44, 7, 9]
        [12, 22, 700, 800, 51, 52, 53, 54, 7, 9] = some (0, 0) ∧
    (mergePass true
        ([[10, 20, 500, 600, 41, 42, 43, 44, 7, 9],
          [12, 22, 700, 800, 51, 52, 53, 54, 7, 9]], [[], []])).1.getD 1 []
      = [12, 22, 10, 20, 51, 52, 53, 54, 7, 9] ∧
    [(12 : ℤ), 22, 10, 20, 51, 52, 53, 54, 7, 9] ≠
      mergeSpecClaim [10, 20, 500, 600, 41, 42, 43, 44, 7, 9]
        [12, 22, 700, 800, 51, 52, 53, 54, 7, 9] 0 0 := by
  decide

/-- Claim C5, amended.  When `findKL` accepts combination `(k, l)` for
segments `i ≠ j`, the merge step voids segment `i`, leaves segment `j`'s
MATCHED endpoint `l` unchanged, overwrites segment `j`'s OTHER endpoint
`1 - l` with segment `i`'s MATCHED endpoint `k`, and (when member
tracking is enabled) appends `i`'s member indices to `j`'s. -/
theorem c5_amended (outlines outhits : List (List ℤ)) (save : Bool)
    (i j k l : ℕ)
    (hkl : findKL (outlines.getD i []) (outlines.getD j []) = some (k, l))
    (hij : i ≠ j) (hj : j < outlines.length)
    (hjlen : (outlines.getD j []).length = 10)
    (hjh : j < outhits.length) :
    (mergeApplyStep save i j (k, l) (outlines, outhits)).1.getD i [] = [] ∧
    ((mergeApplyStep save i j (k, l) (outlines, outhits)).1.getD j []).getD
        (2 * l) 0 = (outlines.getD j []).getD (2 * l) 0 ∧
    ((mergeApplyStep save i j (k, l) (outlines, outhits)).1.getD j []).getD
        (2 * l + 1) 0 = (outlines.getD j []).getD (2 * l + 1) 0 ∧
    ((mergeApplyStep save i j (k, l) (outlines, outhits)).1.getD j []).getD
        (2 * (1 - l)) 0 = (outlines.getD i []).getD (2 * k) 0 ∧
    ((mergeApplyStep save i j (k, l) (outlines, outhits)).1.getD j []).getD
        (2 * (1 - l) + 1) 0 = (outlines.getD i []).getD (2 * k + 1) 0 ∧
    (save = true →
      (mergeApplyStep save i j (k, l) (outlines, outhits)).2.getD j [] =
        outhits.getD j [] ++ outhits.getD i []) := by
  have hgetj :
      (mergeApplyStep save i j (k, l) (outlines, outhits)).1.getD j [] =
        applyMerge (outlines.getD i []) (outlines.getD j []) k l := by
    unfold mergeApplyStep
    rw [getD_set_ne _ _ _ _ _ hij, getD_set_self _ _ _ _ (by simpa using hj)]
  have hgeti :
      (mergeApplyStep save i j (k, l) (outlines, outhits)).1.getD i [] = [] := by
    unfold mergeApplyStep
    exact getD_set_nil_self _ _
  have hhit : save = true →
      (mergeApplyStep save i j (k, l) (outlines, outhits)).2.getD j [] =
        outhits.getD j [] ++ outhits.getD i [] := by
    intro hs
    unfold mergeApplyStep
    rw [hs]
    simp only [if_true]
    rw [getD_set_ne _ _ _ _ _ hij, getD_set_self _ _ _ _ (by simpa using hjh)]
  obtain ⟨hk, hl⟩ := findKL_bounds hkl
  have spec := applyMerge_spec (outlines.getD i []) (outlines.getD j []) k l
    hk hl hjlen
  refine ⟨hgeti, ?_, ?_, ?_, ?_, hhit⟩
  · rw [hgetj]; exact spec.1
  · rw [hgetj]; exact spec.2.1
  · rw [hgetj]; exact spec.2.2.1
  · rw [hgetj]; exact spec.2.2.2

/-- Witness for `c5_amended` at a concrete merge. -/
theorem c5_amended_witness :
    findKL [1000, 2000, 30, 40, 1, 2, 3, 4, 100, 50]
        [1001, 2001, 70, 80, 5, 6, 7, 8, 100, 50] = some (0, 0) ∧
    (mergeApplyStep true 0 1 (0, 0)
        ([[1000, 2000, 30, 40, 1, 2, 3, 4, 100, 50],
          [1001, 2001, 70, 80, 5, 6, 7, 8, 100, 50]],
         [[21], [22]])).1.getD 0 [] = [] ∧
    (mergeApplyStep true 0 1 (0, 0)
        ([[1000, 2000, 30, 40, 1, 2, 3, 4, 100, 50],
          [1001, 2001, 70, 80, 5, 6, 7, 8, 100, 50]],
         [[21], [22]])).2.getD 1 [] = [22, 21] := by
  have h := c5_amended
    [[1000, 2000, 30, 40, 1, 2, 3, 4, 100, 50],
     [1001, 2001, 70, 80, 5, 6, 7, 8, 100, 50]]
    [[21], [22]] true 0 1 0 0 (by decide) (by decide) (by decide) (by decide)
    (by decide)
  exact ⟨by decide, h.1, by simpa using h.2.2.2.2.2 rfl⟩

end MuonTrackSpec

namespace MuonTrackSpec

theorem applyMerge_frame (li lj : List ℤ) (k l p : ℕ) (hp : 4 ≤ p) :
    (applyMerge li lj k l).getD p 0 = lj.getD p 0 := by
  unfold applyMerge
  split_ifs <;>
    rw [getD_set_ne _ _ _ _ _ (by omega), getD_set_ne _ _ _ _ _ (by omega)]

theorem applyMerge_nil (li : List ℤ) (k l : ℕ) :
    applyMerge li [] k l = [] := by
  unfold applyMerge
  split_ifs <;> rfl

theorem mergeApplyStep_frame (base : List (List ℤ)) (save : Bool) (i j : ℕ)
    (kl : ℕ × ℕ) (st : List (List ℤ) × List (List ℤ))
    (h : ∀ m p : ℕ, 4 ≤ p → st.1.getD m [] = [] ∨
        (st.1.getD m []).getD p 0 = (base.getD m []).getD p 0) :
    ∀ m p : ℕ, 4 ≤ p → (mergeApplyStep save i j kl st).1.getD m [] = [] ∨
      ((mergeApplyStep save i j kl st).1.getD m []).getD p 0 =
        (base.getD m []).getD p 0 := by
  intro m p hp
  simp only [mergeApplyStep]
  rcases eq_or_ne i m with rfl | hmi
  · exact Or.inl (getD_set_nil_self _ _)
  · rw [getD_set_ne _ _ _ _ _ hmi]
    rcases eq_or_ne m j with rfl | hmj
    · rcases Nat.lt_or_ge m st.1.length with hlt | hge
      · rw [getD_set_self _ _ _ _ hlt]
        rcases h m p hp with hnil | heq
        · rw [hnil, applyMerge_nil]
          exact Or.inl rfl
        · right
          rw [applyMerge_frame _ _ _ _ p hp]
          exact heq
      · rw [List.set_eq_of_length_le hge]
        exact h m p hp
    · rw [getD_set_ne _ _ _ _ _ (Ne.symm hmj)]
      exact h m p hp

theorem mergeJ_frame (base : List (List ℤ)) (save : Bool) (i n : ℕ)
    (fuel : ℕ) :
    ∀ (j : ℕ) (st : List (List ℤ) × List (List ℤ)),
      (∀ m p : ℕ, 4 ≤ p → st.1.getD m [] = [] ∨
        (st.1.getD m []).getD p 0 = (base.getD m []).getD p 0) →
      ∀ m p : ℕ, 4 ≤ p → (mergeJ save i n fuel j st).1.getD m [] = [] ∨
        ((mergeJ save i n fuel j st).1.getD m []).getD p 0 =
          (base.getD m []).getD p 0 := by
  induction fuel with
  | zero => intro j st h; exact h
  | succ fuel ih =>
    intro j st h m p hp
    rw [mergeJ]
    split_ifs with hjn
    · rcases hfk : findKL (st.1.getD i []) (st.1.getD j []) with _ | kl
      · simp only [hfk]
        exact ih (j + 1) st h m p hp
      · simp only [hfk]
        exact mergeApplyStep_frame base save i j kl st h m p hp
    · exact h m p hp

theorem mergeI_frame (base : List (List ℤ)) (save : Bool) (n : ℕ)
    (fuel : ℕ) :
    ∀ (i : ℕ) (st : List (List ℤ) × List (List ℤ)),
      (∀ m p : ℕ, 4 ≤ p → st.1.getD m [] = [] ∨
        (st.1.getD m []).getD p 0 = (base.getD m []).getD p 0) →
      ∀ m p : ℕ, 4 ≤ p → (mergeI save n fuel i st).1.getD m [] = [] ∨
        ((mergeI save n fuel i st).1.getD m []).getD p 0 =
          (base.getD m []).getD p 0 := by
  induction fuel with
  | zero => intro i st h; exact h
  | succ fuel ih =>
    intro i st h m p hp
    rw [mergeI]
    split_ifs with hin
    · exact ih (i + 1) (mergeJ save i n n (i + 1) st)
        (mergeJ_frame base save i n n (i + 1) st h) m p hp
    · exact h m p hp

/-- Claim C10.  The merge pass may void a segment or rewrite its
endpoint coordinate fields (positions 0-3), but every surviving segment
keeps its endpoint hit-index fields, endpoint data-index fields and
rho/theta parameters (positions 4-9) exactly as before the pass. -/
theorem c10_merge_frame (outlines outhits : List (List ℤ)) (save : Bool)
    (m p : ℕ) (hp4 : 4 ≤ p) (hp9 : p ≤ 9) :
    (mergePass save (outlines, outhits)).1.getD m [] = [] ∨
    ((mergePass save (outlines, outhits)).1.getD m []).getD p 0 =
      (outlines.getD m []).getD p 0 := by
  have h0 : ∀ m p : ℕ, 4 ≤ p →
      (outlines, outhits).1.getD m [] = [] ∨
      ((outlines, outhits).1.getD m []).getD p 0 =
        (outlines.getD m []).getD p 0 :=
    fun _ _ _ => Or.inr rfl
  exact mergeI_frame outlines save outlines.length outlines.length 0
    (outlines, outhits) h0 m p hp4

/-- Witness for `c10_merge_frame`: a concrete merge where segment 1
survives with rewritten endpoints but an untouched field 8 (rho). -/
theorem c10_merge_frame_witness :
    (4 ≤ 8 ∧ 8 ≤ 9) ∧
    ((mergePass true
        ([[5, 6, 7, 8, 11, 12, 13, 14, 200, 90],
          [6, 7, 8, 9, 15, 16, 17, 18, 200, 90]], [[], []])).1.getD 1 [] = [] ∨
     ((mergePass true
        ([[5, 6, 7, 8, 11, 12, 13, 14, 200, 90],
          [6, 7, 8, 9, 15, 16, 17, 18, 200, 90]], [[], []])).1.getD 1 []).getD 8 0 =
       ([[5, 6, 7, 8, 11, 12, 13, 14, 200, 90],
         [6, 7, 8, 9, 15, 16, 17, 18, 200, 90]].getD 1 []).getD 8 0) :=
  ⟨⟨by decide, by decide⟩,
   c10_merge_frame
     [[5, 6, 7, 8, 11, 12, 13, 14, 200, 90],
      [6, 7, 8, 9, 15, 16, 17, 18, 200, 90]] [[], []] true 1 8
     (by decide) (by decide)⟩

/-- Claim C9.  A missing raw hit source (failed `getByLabel`, modelled
by `none`) or an empty one degrades to zero buckets and zero tracks:
`produce` still puts an empty track collection and an empty association
collection into the event, with no error path. -/
theorem c9_empty_input (cfg : Cfg) (or : Oracles) :
    produceF cfg or none = ([], []) ∧ produceF cfg or (some []) = ([], []) :=
  ⟨rfl, rfl⟩

end MuonTrackSpec

namespace MuonTrackSpec

/-! ### Vote-loop bounds (claims C8, C3, C6) -/

theorem voteGo_rows (rhoFn : ℤ → ℤ → ℕ → ℤ) (x y : ℤ) (l : List ℕ) :
    ∀ s : VoteOut, (voteGo rhoFn x y l s).rows = s.rows ++ l.map (rhoFn x y) := by
  induction l with
  | nil => intro s; simp [voteGo]
  | cons j js ih =>
    intro s
    rw [voteGo]
    split_ifs <;> rw [ih] <;> simp

/-- Each theta bin of one vote pass increments exactly one cell of its
own column, so if every cell of a column still to be visited is at most
`S`, every cell stays at most `S + 1` and the running maximum stays at
most `max maxv (S + 1)`. -/
theorem voteGo_bound (rhoFn : ℤ → ℤ → ℕ → ℤ) (x y : ℤ) (S : ℤ) (l : List ℕ) :
    l.Nodup → ∀ s : VoteOut,
      (∀ r j, s.accu r j ≤ S + 1) →
      (∀ r j, j ∈ l → s.accu r j ≤ S) →
      (∀ r j, (voteGo rhoFn x y l s).accu r j ≤ S + 1) ∧
      (voteGo rhoFn x y l s).maxv ≤ max s.maxv (S + 1) := by
  induction l with
  | nil => intro _ s h1 _; exact ⟨h1, le_max_left _ _⟩
  | cons j js ih =>
    intro hnd s h1 h2
    have hjnotin : j ∉ js := (List.nodup_cons.mp hnd).1
    have hndjs : js.Nodup := (List.nodup_cons.mp hnd).2
    have h1' : ∀ r' j',
        (if r' = rhoFn x y j ∧ j' = j then s.accu r' j' + 1 else s.accu r' j')
          ≤ S + 1 := by
      intro r' j'
      split_ifs with hc
      · have := h2 r' j' (by rw [hc.2]; exact List.mem_cons_self j js)
        omega
      · exact h1 r' j'
    have h2' : ∀ r' j', j' ∈ js →
        (if r' = rhoFn x y j ∧ j' = j then s.accu r' j' + 1 else s.accu r' j')
          ≤ S := by
      intro r' j' hj'
      split_ifs with hc
      · exact absurd (hc.2 ▸ hj') hjnotin
      · exact h2 r' j' (List.mem_cons_of_mem j hj')
    have hval : s.accu (rhoFn x y j) j + 1 ≤ S + 1 := by
      have := h2 (rhoFn x y j) j (List.mem_cons_self j js)
      omega
    rw [voteGo]
    simp only [eq_self_iff_true, and_self, if_true]
    split_ifs with hmax
    · have res := ih hndjs
        { accu := fun r' j' =>
            if r' = rhoFn x y j ∧ j' = j then s.accu r' j' + 1 else s.accu r' j',
          maxv := s.accu (rhoFn x y j) j + 1,
          rho := rhoFn x y j, theta := (j : ℤ) * 180 / 180,
          rows := s.rows ++ [rhoFn x y j] } h1' h2'
      refine ⟨res.1, res.2.trans ?_⟩
      exact max_le (le_max_of_le_right hval) (le_max_right _ _)
    · have res := ih hndjs
        { accu := fun r' j' =>
            if r' = rhoFn x y j ∧ j' = j then s.accu r' j' + 1 else s.accu r' j',
          maxv := s.maxv, rho := s.rho, theta := s.theta,
          rows := s.rows ++ [rhoFn x y j] } h1' h2'
      exact ⟨res.1, res.2⟩

end MuonTrackSpec

namespace MuonTrackSpec

theorem votePass_bound (rhoFn : ℤ → ℤ → ℕ → ℤ) (threshold x y : ℤ)
    (accu : ℤ → ℕ → ℤ) (S : ℤ) (hacc : ∀ r j, accu r j ≤ S) :
    (∀ r j, (votePass rhoFn threshold x y accu).accu r j ≤ S + 1) ∧
    (votePass rhoFn threshold x y accu).maxv ≤ max (threshold - 1) (S + 1) := by
  have h := voteGo_bound rhoFn x y S (List.range accuW) (List.nodup_range accuW)
    { accu := accu, maxv := threshold - 1, rho := 0, theta := 0, rows := [] }
    (fun r j => (hacc r j).trans (by omega)) (fun r j _ => hacc r j)
  simpa [votePass] using h

/-- While every accumulator cell is at most `S` and at most
`S + count ≤ n0 < threshold` more seeds can vote, no candidate ever
reaches the vote threshold, so the loop only discards seeds and collects
no line. -/
theorem houghLoop_small (cfg : HCfg) (n0 : ℕ) (hthr : (n0 : ℤ) < cfg.threshold) :
    ∀ (count : ℕ) (st : HState) (S : ℤ),
      S + count ≤ (n0 : ℤ) →
      (∀ r j, st.accu r j ≤ S) →
      (houghLoop cfg count st).outlines = st.outlines ∧
      (houghLoop cfg count st).outhits = st.outhits := by
  intro count
  induction count with
  | zero => intro st S _ _; exact ⟨rfl, rfl⟩
  | succ c ih =>
    intro st S hS hacc
    rw [houghLoop]
    simp only []
    by_cases hempty :
        st.coords.getD (cfg.rng (c + 1) % (c + 1)) [] = []
    · rw [if_pos hempty]
      exact ih st S (by push_cast at hS ⊢; omega) hacc
    · rw [if_neg hempty]
      have hb := votePass_bound cfg.rhoFn cfg.threshold
        ((st.coords.getD (cfg.rng (c + 1) % (c + 1)) []).getD 0 0)
        ((st.coords.getD (cfg.rng (c + 1) % (c + 1)) []).getD 1 0)
        st.accu S hacc
      have hmax : (votePass cfg.rhoFn cfg.threshold
          ((st.coords.getD (cfg.rng (c + 1) % (c + 1)) []).getD 0 0)
          ((st.coords.getD (cfg.rng (c + 1) % (c + 1)) []).getD 1 0)
          st.accu).maxv < cfg.threshold := by
        refine lt_of_le_of_lt hb.2 ?_
        have h1 : S + 1 ≤ (n0 : ℤ) := by push_cast at hS; omega
        have : max (cfg.threshold - 1) (S + 1) ≤ cfg.threshold - 1 :=
          max_le le_rfl (by omega)
        omega
      rw [if_pos hmax]
      exact ih _ (S + 1) (by push_cast at hS ⊢; omega) hb.1

/-- Claim C8.  If the bucket's point count is strictly below the vote
threshold (and the threshold is positive), the Hough Line Finder returns
no lines: the accumulator can never reach threshold, so every seed is
discarded, no segment is recorded, and the merge and filter passes act
on empty lists. -/
theorem c8_small_bucket_no_lines (rhoFn : ℤ → ℤ → ℕ → ℤ)
    (yFn : ℤ → ℤ → ℤ → ℤ) (rng : ℕ → ℕ) (coords : List Pt)
    (param : List ℤ) (save_hits : Bool)
    (hthr : 0 < param.getD 0 0)
    (hsize : (coords.length : ℤ) < param.getD 0 0) :
    (Hough rhoFn yFn rng coords param save_hits).lines = [] := by
  simp only [Hough]
  have h := houghLoop_small
    { rhoFn := rhoFn, yFn := yFn, rng := rng,
      threshold := param.getD 0 0, max_gap := param.getD 1 0,
      range := param.getD 2 0, save_hits := save_hits }
    coords.length hsize coords.length
    { coords := coords, data := coords, accu := fun _ _ => 0, deaccu := [],
      outlines := [], outhits := [], rowLog := [], readLog := [],
      clearedSeeds := [], consumed := [] }
    0 (by omega) (fun _ _ => le_rfl)
  rw [h.1, h.2]
  rfl

/-- Witness for `c8_small_bucket_no_lines`: a one-point bucket with
threshold 2. -/
theorem c8_small_bucket_no_lines_witness :
    ((0 : ℤ) < 2 ∧ ((1 : ℤ) < 2)) ∧
    (Hough (fun _ _ _ => 0) (fun _ _ _ => 0) (fun _ => 0)
      [[1, 1, 0]] [2, 30, 100, 500, 2500] true).lines = [] :=
  ⟨⟨by decide, by decide⟩,
   c8_small_bucket_no_lines (fun _ _ _ => 0) (fun _ _ _ => 0) (fun _ => 0)
     [[1, 1, 0]] [2, 30, 100, 500, 2500] true (by decide) (by decide)⟩

end MuonTrackSpec

namespace MuonTrackSpec

/-! ### Claim C3: destructive consumption and the by-value bucket -/

theorem walkDir_coords_nil (cfg : HCfg) (idx : ℕ) (rho theta : ℤ)
    (dir : Bool) :
    ∀ (fuel : ℕ) (i gap : ℤ) (s : WalkSt) (m : ℕ),
      s.coords.getD m [] = [] →
      (walkDir cfg idx rho theta dir fuel i gap s).coords.getD m [] = [] := by
  intro fuel
  induction fuel with
  | zero => intro i gap s m h; exact h
  | succ fuel ih =>
    intro i gap s m h
    rw [walkDir]
    simp only []
    split_ifs <;>
      first
        | exact h
        | exact ih _ _ _ m h
        | exact ih _ _ _ m (getD_set_nil _ _ _ h)

theorem walkDir_consumed_nil (cfg : HCfg) (idx : ℕ) (rho theta : ℤ)
    (dir : Bool) :
    ∀ (fuel : ℕ) (i gap : ℤ) (s : WalkSt),
      (∀ m ∈ s.consumed, s.coords.getD m [] = []) →
      ∀ m ∈ (walkDir cfg idx rho theta dir fuel i gap s).consumed,
        (walkDir cfg idx rho theta dir fuel i gap s).coords.getD m [] = [] := by
  intro fuel
  induction fuel with
  | zero => intro i gap s h; exact h
  | succ fuel ih =>
    intro i gap s h
    rw [walkDir]
    simp only []
    split_ifs <;>
      first
        | exact h
        | exact ih _ _ _ h
        | (refine ih _ _ _ ?_
           intro m hm
           rcases List.mem_append.mp hm with hold | hnew
           · exact getD_set_nil _ _ _ (h m hold)
           · rw [List.mem_singleton.mp hnew]
             exact getD_set_nil_self _ _)

theorem walkBoth_coords_nil (cfg : HCfg) (idx : ℕ) (rho theta : ℤ)
    (coords data : List Pt) (m : ℕ) (h : coords.getD m [] = []) :
    (walkBoth cfg idx rho theta coords data).2.coords.getD m [] = [] := by
  simp only [walkBoth]
  exact walkDir_coords_nil cfg _ _ _ _ _ _ _ _ m
    (walkDir_coords_nil cfg _ _ _ _ _ _ _ _ m h)

theorem walkBoth_consumed_nil (cfg : HCfg) (idx : ℕ) (rho theta : ℤ)
    (coords data : List Pt) :
    ∀ m ∈ (walkBoth cfg idx rho theta coords data).2.consumed,
      (walkBoth cfg idx rho theta coords data).2.coords.getD m [] = [] := by
  simp only [walkBoth]
  refine walkDir_consumed_nil cfg _ _ _ _ _ _ _ _ ?_
  refine walkDir_consumed_nil cfg _ _ _ _ _ _ _ _ ?_
  intro m hm
  exact absurd hm (List.not_mem_nil m)

/-- Every index recorded as a cleared seed or as a walk-consumed point
is empty in the loop's working copy of the bucket from then on. -/
theorem houghLoop_cleared (cfg : HCfg) :
    ∀ (count : ℕ) (st : HState),
      (∀ m ∈ st.clearedSeeds ++ st.consumed, st.coords.getD m [] = []) →
      ∀ m ∈ (houghLoop cfg count st).clearedSeeds ++
            (houghLoop cfg count st).consumed,
        (houghLoop cfg count st).coords.getD m [] = [] := by
  intro count
  induction count with
  | zero => intro st h; exact h
  | succ c ih =>
    intro st h
    rw [houghLoop]
    simp only []
    by_cases hempty : st.coords.getD (cfg.rng (c + 1) % (c + 1)) [] = []
    · rw [if_pos hempty]; exact ih st h
    · rw [if_neg hempty]
      by_cases hmax : (votePass cfg.rhoFn cfg.threshold
          ((st.coords.getD (cfg.rng (c + 1) % (c + 1)) []).getD 0 0)
          ((st.coords.getD (cfg.rng (c + 1) % (c + 1)) []).getD 1 0)
          st.accu).maxv < cfg.threshold
      · rw [if_pos hmax]
        refine ih _ ?_
        intro m hm
        simp only [List.mem_append, List.mem_singleton] at hm
        rcases hm with (hold | rfl) | hold
        · exact getD_set_nil _ _ _ (h m (List.mem_append.mpr (Or.inl hold)))
        · exact getD_set_nil_self _ _
        · exact getD_set_nil _ _ _ (h m (List.mem_append.mpr (Or.inr hold)))
      · rw [if_neg hmax]
        split_ifs with hsent <;>
            refine ih _ ?_ <;> intro m hm <;>
            simp only [List.mem_append] at hm <;>
            rcases hm with hcs | hcons | hw1 <;>
            first
              | exact walkBoth_coords_nil cfg _ _ _ _ _ m
                  (h m (List.mem_append.mpr (Or.inl hcs)))
              | exact walkBoth_coords_nil cfg _ _ _ _ _ m
                  (h m (List.mem_append.mpr (Or.inr hcons)))
              | exact walkBoth_consumed_nil cfg _ _ _ _ _ m hw1

end MuonTrackSpec

namespace MuonTrackSpec

/-- Claim C3, amended.  The destructive consumption is real but happens
in `Hough`'s LOCAL copy of the bucket: every seed cleared for missing
the vote threshold and every point consumed by the corridor walk is
empty in the local copy when the call ends.  The caller's bucket,
however, is unchanged by the call, because the source receives `coords`
by value (line 284) — the claim's asserted mutation of the caller's
bucket never happens. -/
theorem c3_local_copy_cleared (rhoFn : ℤ → ℤ → ℕ → ℤ)
    (yFn : ℤ → ℤ → ℤ → ℤ) (rng : ℕ → ℕ) (coords : List Pt)
    (param : List ℤ) (save_hits : Bool) :
    HoughCallerBucketAfter rhoFn yFn rng coords param save_hits = coords ∧
    ∀ m ∈ (Hough rhoFn yFn rng coords param save_hits).clearedSeeds ++
          (Hough rhoFn yFn rng coords param save_hits).consumed,
      (Hough rhoFn yFn rng coords param save_hits).coordsAfter.getD m []
        = [] := by
  refine ⟨rfl, ?_⟩
  simp only [Hough]
  refine houghLoop_cleared _ coords.length _ ?_
  intro m hm
  exact absurd hm (List.not_mem_nil m)

set_option maxRecDepth 40000 in
/-- Witness for `c3_local_copy_cleared`: a one-point bucket whose seed
misses threshold 2 and is cleared in the local copy. -/
theorem c3_local_copy_cleared_witness :
    ((0 : ℕ) ∈ (Hough (fun _ _ _ => 0) (fun _ _ _ => 0) (fun _ => 0)
        [[1, 1, 0]] [2, 30, 100, 500, 2500] true).clearedSeeds ++
        (Hough (fun _ _ _ => 0) (fun _ _ _ => 0) (fun _ => 0)
        [[1, 1, 0]] [2, 30, 100, 500, 2500] true).consumed) ∧
    (Hough (fun _ _ _ => 0) (fun _ _ _ => 0) (fun _ => 0)
        [[1, 1, 0]] [2, 30, 100, 500, 2500] true).coordsAfter.getD 0 []
      = [] :=
  ⟨by decide,
   (c3_local_copy_cleared (fun _ _ _ => 0) (fun _ _ _ => 0) (fun _ => 0)
     [[1, 1, 0]] [2, 30, 100, 500, 2500] true).2 0 (by decide)⟩

/-- One iteration over a single live seed at index 0 whose vote misses
the threshold: the seed is cleared in the local copy and the vote rows
are logged. -/
theorem houghLoop_one_clear (cfg : HCfg) (st : HState)
    (hne : ¬ st.coords.getD 0 [] = [])
    (hacc : ∀ r j, st.accu r j ≤ 0) (hthr : 1 < cfg.threshold) :
    (houghLoop cfg 1 st).coords = st.coords.set 0 [] ∧
    (houghLoop cfg 1 st).rowLog = st.rowLog ++
      (List.range accuW).map
        (cfg.rhoFn ((st.coords.getD 0 []).getD 0 0)
          ((st.coords.getD 0 []).getD 1 0)) := by
  rw [houghLoop]
  simp only [Nat.zero_add, Nat.mod_one]
  rw [if_neg hne]
  have hb := votePass_bound cfg.rhoFn cfg.threshold
    ((st.coords.getD 0 []).getD 0 0) ((st.coords.getD 0 []).getD 1 0)
    st.accu 0 hacc
  have hmax : (votePass cfg.rhoFn cfg.threshold
      ((st.coords.getD 0 []).getD 0 0) ((st.coords.getD 0 []).getD 1 0)
      st.accu).maxv < cfg.threshold :=
    lt_of_le_of_lt hb.2 (max_lt (by omega) (by omega))
  rw [if_pos hmax]
  refine ⟨rfl, ?_⟩
  show st.rowLog ++ (votePass cfg.rhoFn cfg.threshold
      ((st.coords.getD 0 []).getD 0 0) ((st.coords.getD 0 []).getD 1 0)
      st.accu).rows = _
  rw [votePass, voteGo_rows]
  simp

/-- Counterexample to claim C3.  With the source's trigonometric kernels
(real-valued, `PI = 3.14159265`), the bucket `[[1,1,0]]` and vote
threshold 2: the single seed misses the threshold and is cleared in the
local copy (which ends as `[[]]`), but the caller's bucket is still
`[[1,1,0]]` after the call — the claim that the consumed/discarded
points "are no longer live in the caller's bucket" is false. -/
theorem c3_counterexample :
    HoughCallerBucketAfter
        (fun x y j => round (((x : ℝ) - (xC : ℝ)) *
            Real.cos ((j : ℝ) * (PIcQ : ℝ) / 180) +
          ((y : ℝ) - (yC : ℝ)) * Real.sin ((j : ℝ) * (PIcQ : ℝ) / 180)))
        (fun rho theta x1 => round (((rho : ℝ) -
            ((x1 : ℝ) - (xC : ℝ)) *
              Real.cos ((theta : ℝ) * (PIcQ : ℝ) / 180)) /
            Real.sin ((theta : ℝ) * (PIcQ : ℝ) / 180) + (yC : ℝ)))
        (fun _ => 0) [[1, 1, 0]] [2, 30, 100, 500, 2500] true ≠
      (Hough
        (fun x y j => round (((x : ℝ) - (xC : ℝ)) *
            Real.cos ((j : ℝ) * (PIcQ : ℝ) / 180) +
          ((y : ℝ) - (yC : ℝ)) * Real.sin ((j : ℝ) * (PIcQ : ℝ) / 180)))
        (fun rho theta x1 => round (((rho : ℝ) -
            ((x1 : ℝ) - (xC : ℝ)) *
              Real.cos ((theta : ℝ) * (PIcQ : ℝ) / 180)) /
            Real.sin ((theta : ℝ) * (PIcQ : ℝ) / 180) + (yC : ℝ)))
        (fun _ => 0) [[1, 1, 0]] [2, 30, 100, 500, 2500] true).coordsAfter := by
  simp only [Hough, HoughCallerBucketAfter, List.length_cons,
    List.length_nil, Nat.zero_add]
  intro hcontra
  have h := houghLoop_one_clear
    { rhoFn := fun x y j => round (((x : ℝ) - (xC : ℝ)) *
          Real.cos ((j : ℝ) * (PIcQ : ℝ) / 180) +
        ((y : ℝ) - (yC : ℝ)) * Real.sin ((j : ℝ) * (PIcQ : ℝ) / 180)),
      yFn := fun rho theta x1 => round (((rho : ℝ) -
          ((x1 : ℝ) - (xC : ℝ)) *
            Real.cos ((theta : ℝ) * (PIcQ : ℝ) / 180)) /
          Real.sin ((theta : ℝ) * (PIcQ : ℝ) / 180) + (yC : ℝ)),
      rng := fun _ => 0,
      threshold := ([2, 30, 100, 500, 2500] : List ℤ).getD 0 0,
      max_gap := ([2, 30, 100, 500, 2500] : List ℤ).getD 1 0,
      range := ([2, 30, 100, 500, 2500] : List ℤ).getD 2 0,
      save_hits := true }
    { coords := [[1, 1, 0]], data := [[1, 1, 0]], accu := fun _ _ => 0,
      deaccu := [], outlines := [], outhits := [], rowLog := [],
      readLog := [], clearedSeeds := [], consumed := [] }
    (by decide) (fun _ _ => le_rfl) (by decide)
  rw [h.1] at hcontra
  exact absurd hcontra (by decide)

end MuonTrackSpec

namespace MuonTrackSpec

/-! ### Claim C7: the endpoint matcher -/

theorem feTry_nondeg {geomI geomFix : ℤ → ℤ → Option P3} {range : ℤ}
    {li lj : List ℤ} {q : P3 × P3 × ℤ × ℤ}
    (h : feTry geomI geomFix range li lj = some q) :
    q.1.mag2 ≠ 0 ∧ q.2.1.mag2 ≠ 0 := by
  simp only [feTry] at h
  repeat' split at h
  all_goals
    first
      | exact Option.noConfusion h
      | (injection h with h
         subst h
         assumption)

theorem findSome_feTry_nondeg {geomI geomFix : ℤ → ℤ → Option P3}
    {range : ℤ} {li : List ℤ} {lines_ind : List (List ℤ)}
    {q : P3 × P3 × ℤ × ℤ}
    (h : lines_ind.findSome? (feTry geomI geomFix range li) = some q) :
    q.1.mag2 ≠ 0 ∧ q.2.1.mag2 ≠ 0 := by
  obtain ⟨lj, _, hj⟩ := List.exists_of_findSome?_eq_some h
  exact feTry_nondeg hj

/-- Loop invariant of the endpoint matcher's `i` loop: emitted indices
are distinct, below the scan position, cleared in the working line list,
were non-empty in the input, one pair is pushed per emission, and every
pushed pair is nondegenerate. -/
theorem feGo_inv (geomI geomFix : ℤ → ℤ → Option P3) (range : ℤ)
    (lines_ind hit_idxP : List (List ℤ)) (base : List (List ℤ))
    (acc0 : FEAcc) :
    ∀ (fuel i : ℕ) (st : List (List ℤ) × FEAcc × List ℕ),
      (∀ m ∈ st.2.2, m < i) →
      st.2.2.Nodup →
      (∀ m ∈ st.2.2, st.1.getD m [] = []) →
      (∀ m, i ≤ m → st.1.getD m [] = base.getD m []) →
      (∀ m ∈ st.2.2, base.getD m [] ≠ []) →
      st.2.1.muon_endpoints.length =
        acc0.muon_endpoints.length + st.2.2.length →
      (∀ q ∈ st.2.1.muon_endpoints, q ∈ acc0.muon_endpoints ∨
        (q.1.mag2 ≠ 0 ∧ q.2.mag2 ≠ 0)) →
      (∀ m ∈ (feGo geomI geomFix range lines_ind hit_idxP fuel i st).2.2,
        m < i + fuel) ∧
      (feGo geomI geomFix range lines_ind hit_idxP fuel i st).2.2.Nodup ∧
      (∀ m ∈ (feGo geomI geomFix range lines_ind hit_idxP fuel i st).2.2,
        (feGo geomI geomFix range lines_ind hit_idxP fuel i st).1.getD m []
          = []) ∧
      (∀ m ∈ (feGo geomI geomFix range lines_ind hit_idxP fuel i st).2.2,
        base.getD m [] ≠ []) ∧
      (feGo geomI geomFix range lines_ind hit_idxP fuel i
          st).2.1.muon_endpoints.length =
        acc0.muon_endpoints.length +
          (feGo geomI geomFix range lines_ind hit_idxP fuel i st).2.2.length ∧
      (∀ q ∈ (feGo geomI geomFix range lines_ind hit_idxP fuel i
          st).2.1.muon_endpoints,
        q ∈ acc0.muon_endpoints ∨ (q.1.mag2 ≠ 0 ∧ q.2.mag2 ≠ 0)) := by
  intro fuel
  induction fuel with
  | zero =>
    intro i st ha hb hc hd hg he hf
    exact ⟨fun m hm => Nat.lt_of_lt_of_le (ha m hm) (Nat.le_add_right i 0),
      hb, hc, hg, he, hf⟩
  | succ fuel ih =>
    intro i st ha hb hc hd hg he hf
    rw [feGo]
    by_cases hli : st.1.getD i [] = []
    · rw [if_pos hli]
      have res := ih (i + 1) st (fun m hm => Nat.lt_succ_of_lt (ha m hm))
        hb hc (fun m hm => hd m (Nat.le_of_succ_le hm)) hg he hf
      refine ⟨fun m hm => ?_, res.2.1, res.2.2.1, res.2.2.2.1,
        res.2.2.2.2.1, res.2.2.2.2.2⟩
      have := res.1 m hm
      omega
    · rw [if_neg hli]
      rcases hfs : lines_ind.findSome?
          (feTry geomI geomFix range (st.1.getD i [])) with _ | q
      · simp only [hfs]
        have res := ih (i + 1) st (fun m hm => Nat.lt_succ_of_lt (ha m hm))
          hb hc (fun m hm => hd m (Nat.le_of_succ_le hm)) hg he hf
        refine ⟨fun m hm => ?_, res.2.1, res.2.2.1, res.2.2.2.1,
          res.2.2.2.2.1, res.2.2.2.2.2⟩
        have := res.1 m hm
        omega
      · simp only [hfs]
        have hnd := findSome_feTry_nondeg hfs
        have ha' : ∀ m ∈ st.2.2 ++ [i], m < i + 1 := by
          intro m hm
          rcases List.mem_append.mp hm with hold | hnew
          · exact Nat.lt_succ_of_lt (ha m hold)
          · rw [List.mem_singleton.mp hnew]
            exact Nat.lt_succ_self i
        have hb' : (st.2.2 ++ [i]).Nodup := by
          rw [List.nodup_append]
          exact ⟨hb, List.nodup_singleton i,
            fun m hm hm' => absurd (List.mem_singleton.mp hm' ▸ ha m hm)
              (lt_irrefl i)⟩
        have hc' : ∀ m ∈ st.2.2 ++ [i],
            (st.1.set i []).getD m [] = [] := by
          intro m hm
          rcases List.mem_append.mp hm with hold | hnew
          · exact getD_set_nil _ _ _ (hc m hold)
          · rw [List.mem_singleton.mp hnew]
            exact getD_set_nil_self _ _
        have hd' : ∀ m, i + 1 ≤ m →
            (st.1.set i []).getD m [] = base.getD m [] := by
          intro m hm
          rw [getD_set_ne _ _ _ _ _ (by omega)]
          exact hd m (by omega)
        have hg' : ∀ m ∈ st.2.2 ++ [i], base.getD m [] ≠ [] := by
          intro m hm
          rcases List.mem_append.mp hm with hold | hnew
          · exact hg m hold
          · rw [List.mem_singleton.mp hnew, ← hd i le_rfl]
            exact hli
        have he' : (st.2.1.muon_endpoints ++ [(q.1, q.2.1)]).length =
            acc0.muon_endpoints.length + (st.2.2 ++ [i]).length := by
          simp [he]
          omega
        have hf' : ∀ p ∈ st.2.1.muon_endpoints ++ [(q.1, q.2.1)],
            p ∈ acc0.muon_endpoints ∨ (p.1.mag2 ≠ 0 ∧ p.2.mag2 ≠ 0) := by
          intro p hp
          rcases List.mem_append.mp hp with hold | hnew
          · exact hf p hold
          · rw [List.mem_singleton.mp hnew]
            exact Or.inr hnd
        have res := ih (i + 1) (st.1.set i [],
          { muon_endpoints := st.2.1.muon_endpoints ++ [(q.1, q.2.1)],
            muon_hitpeakT := st.2.1.muon_hitpeakT ++ [[q.2.2.1, q.2.2.2]],
            muon_hit_idx := st.2.1.muon_hit_idx ++ [hit_idxP.getD i []] },
          st.2.2 ++ [i]) ha' hb' hc' hd' hg' he' hf'
        refine ⟨fun m hm => ?_, res.2.1, res.2.2.1, res.2.2.2.1,
          res.2.2.2.2.1, res.2.2.2.2.2⟩
        have := res.1 m hm
        omega

/-- Claim C7.  `FindEndpoints` appends a pair only when both resolved
3D endpoints have nonzero squared magnitude; each collection line emits
at most one pair per call (the emitted index list is duplicate-free and
one pair is pushed per emitted index); an emitting line is cleared in
the returned line list, so it cannot match again; and a line that is
already cleared on entry never emits. -/
theorem c7_endpoint_matcher (geomI geomFix : ℤ → ℤ → Option P3)
    (range : ℤ) (lines_col lines_ind hit_idxP : List (List ℤ))
    (acc : FEAcc) :
    (∀ q ∈ (FindEndpoints geomI geomFix range lines_col lines_ind hit_idxP
        acc).2.1.muon_endpoints,
      q ∈ acc.muon_endpoints ∨ (q.1.mag2 ≠ 0 ∧ q.2.mag2 ≠ 0)) ∧
    (FindEndpoints geomI geomFix range lines_col lines_ind hit_idxP
        acc).2.2.Nodup ∧
    (∀ m ∈ (FindEndpoints geomI geomFix range lines_col lines_ind hit_idxP
        acc).2.2,
      (FindEndpoints geomI geomFix range lines_col lines_ind hit_idxP
        acc).1.getD m [] = []) ∧
    (FindEndpoints geomI geomFix range lines_col lines_ind hit_idxP
        acc).2.1.muon_endpoints.length =
      acc.muon_endpoints.length +
        (FindEndpoints geomI geomFix range lines_col lines_ind hit_idxP
          acc).2.2.length ∧
    (∀ m, lines_col.getD m [] = [] →
      m ∉ (FindEndpoints geomI geomFix range lines_col lines_ind hit_idxP
        acc).2.2) := by
  unfold FindEndpoints
  split_ifs with hnil
  · exact ⟨fun q hq => Or.inl hq, List.nodup_nil,
      fun m hm => absurd hm (List.not_mem_nil m),
      by simp, fun m _ hm => absurd hm (List.not_mem_nil m)⟩
  · have res := feGo_inv geomI geomFix range lines_ind hit_idxP lines_col acc
      lines_col.length 0 (lines_col, acc, [])
      (fun m hm => absurd hm (List.not_mem_nil m)) List.nodup_nil
      (fun m hm => absurd hm (List.not_mem_nil m)) (fun m _ => rfl)
      (fun m hm => absurd hm (List.not_mem_nil m)) (by simp)
      (fun q hq => Or.inl hq)
    refine ⟨res.2.2.2.2.2, res.2.1, res.2.2.1, res.2.2.2.2.1, ?_⟩
    intro m hme hm
    exact res.2.2.2.1 m hm hme

/-- Witness for `c7_endpoint_matcher`: one collection line matching one
induction line with both endpoints resolved by the geometry oracle. -/
theorem c7_endpoint_matcher_witness :
    ((0 : ℕ) ∈ (FindEndpoints
        (fun a b => if a = 0 ∧ b = 2 then some ⟨1, 2, 3⟩
          else if a = 1 ∧ b = 3 then some ⟨4, 5, 6⟩ else none)
        (fun _ _ => none) 30
        [[10, 100, 20, 200, 0, 1, 0, 3, 5, 7]]
        [[30, 110, 40, 210, 2, 3, 0, 0, 0, 0]] [[9, 8]]
        ⟨[], [], []⟩).2.2) ∧
    (FindEndpoints
        (fun a b => if a = 0 ∧ b = 2 then some ⟨1, 2, 3⟩
          else if a = 1 ∧ b = 3 then some ⟨4, 5, 6⟩ else none)
        (fun _ _ => none) 30
        [[10, 100, 20, 200, 0, 1, 0, 3, 5, 7]]
        [[30, 110, 40, 210, 2, 3, 0, 0, 0, 0]] [[9, 8]]
        ⟨[], [], []⟩).1.getD 0 [] = [] := by
  have hres : FindEndpoints
      (fun a b => if a = 0 ∧ b = 2 then some ⟨1, 2, 3⟩
        else if a = 1 ∧ b = 3 then some ⟨4, 5, 6⟩ else none)
      (fun _ _ => none) 30
      [[10, 100, 20, 200, 0, 1, 0, 3, 5, 7]]
      [[30, 110, 40, 210, 2, 3, 0, 0, 0, 0]] [[9, 8]]
      ⟨[], [], []⟩ =
      ([[]], ⟨[(⟨1, 2, 3⟩, ⟨4, 5, 6⟩)], [[100, 200]], [[9, 8]]⟩, [0]) := by
    norm_num [FindEndpoints, feGo, feTry, resolveEndpoint, P3.mag2,
      List.findSome?]
    decide
  refine ⟨by rw [hres]; decide, ?_⟩
  exact (c7_endpoint_matcher
    (fun a b => if a = 0 ∧ b = 2 then some ⟨1, 2, 3⟩
      else if a = 1 ∧ b = 3 then some ⟨4, 5, 6⟩ else none)
    (fun _ _ => none) 30
    [[10, 100, 20, 200, 0, 1, 0, 3, 5, 7]]
    [[30, 110, 40, 210, 2, 3, 0, 0, 0, 0]] [[9, 8]]
    ⟨[], [], []⟩).2.2.1 0 (by rw [hres]; decide)

end MuonTrackSpec

namespace MuonTrackSpec

/-! ### Claim C6: accumulator and corridor-walk index bounds -/

theorem unvoteSub_rows_go (rhoFn : ℤ → ℤ → ℕ → ℤ) (x1 y1 : ℤ) :
    ∀ (l : List ℕ) (a : ℤ → ℕ → ℤ) (rs : List ℤ),
      (l.foldl
        (fun (q : (ℤ → ℕ → ℤ) × List ℤ) m =>
          let r := rhoFn x1 y1 m
          (fun r' j' => if r' = r ∧ j' = m then q.1 r' j' - 1 else q.1 r' j',
           q.2 ++ [r]))
        (a, rs)).2 = rs ++ l.map (rhoFn x1 y1) := by
  intro l
  induction l with
  | nil => intro a rs; simp
  | cons m ms ih => intro a rs; simp [ih]

theorem unvoteSub_rows (rhoFn : ℤ → ℤ → ℕ → ℤ) (x1 y1 : ℤ)
    (accu : ℤ → ℕ → ℤ) :
    (unvoteSub rhoFn x1 y1 accu).2 = (List.range accuW).map (rhoFn x1 y1) := by
  have h := unvoteSub_rows_go rhoFn x1 y1 (List.range accuW) accu []
  simpa [unvoteSub] using h

/-- Every row the un-vote pass touches is `rhoFn` of a de-accumulator
point, and the surviving de-accumulator is a subset of the input. -/
theorem unvotePass_inv (rhoFn : ℤ → ℤ → ℕ → ℤ) (yFn : ℤ → ℤ → ℤ → ℤ)
    (range rho theta : ℤ) :
    ∀ (deaccu : List (ℤ × ℤ)) (accu : ℤ → ℕ → ℤ),
      (∀ q ∈ (unvotePass rhoFn yFn range rho theta deaccu accu).deaccu,
        q ∈ deaccu) ∧
      (∀ r ∈ (unvotePass rhoFn yFn range rho theta deaccu accu).rows,
        ∃ q ∈ deaccu, ∃ j : ℕ, r = rhoFn q.1 q.2 j) := by
  intro deaccu
  induction deaccu with
  | nil =>
    intro accu
    exact ⟨fun q hq => hq, fun r hr => absurd hr (List.not_mem_nil r)⟩
  | cons q qs ih =>
    intro accu
    rw [unvotePass] at *
    simp only [List.foldr_cons]
    constructor
    · intro p hp
      split_ifs at hp with hcorr
      · exact List.mem_cons_of_mem q ((ih accu).1 p hp)
      · simp only [List.mem_cons] at hp
        rcases hp with rfl | hp
        · exact List.mem_cons_self p qs
        · exact List.mem_cons_of_mem q ((ih accu).1 p hp)
    · intro r hr
      split_ifs at hr with hcorr
      · simp only [List.mem_append] at hr
        rcases hr with hold | hnew
        · obtain ⟨p, hp, j, hj⟩ := (ih accu).2 r hold
          exact ⟨p, List.mem_cons_of_mem q hp, j, hj⟩
        · rw [unvoteSub_rows] at hnew
          obtain ⟨j, _, hj⟩ := List.mem_map.mp hnew
          exact ⟨q, List.mem_cons_self q qs, j, hj.symm⟩
      · obtain ⟨p, hp, j, hj⟩ := (ih accu).2 r hr
        exact ⟨p, List.mem_cons_of_mem q hp, j, hj⟩

/-- `RhoSpec` implies the integer bound used for the accumulator-row
safety argument: `|rho| ≤ |x - x_c| + |y - y_c|`. -/
theorem rhoSpec_bound {rhoFn : ℤ → ℤ → ℕ → ℤ} (h : RhoSpec rhoFn) :
    ∀ x y : ℤ, ∀ j : ℕ, |rhoFn x y j| ≤ |x - xC| + |y - yC| := by
  intro x y j
  rw [h x y j]
  set th : ℝ := (j : ℝ) * (PIcQ : ℝ) / 180 with hth
  set z : ℝ := ((x : ℝ) - (xC : ℝ)) * Real.cos th +
    ((y : ℝ) - (yC : ℝ)) * Real.sin th with hz
  have hzb : |z| ≤ ((|x - xC| + |y - yC| : ℤ) : ℝ) := by
    refine (abs_add _ _).trans ?_
    rw [abs_mul, abs_mul]
    push_cast
    have h1 : |(x : ℝ) - (xC : ℝ)| * |Real.cos th| ≤ |(x : ℝ) - (xC : ℝ)| := by
      calc |(x : ℝ) - (xC : ℝ)| * |Real.cos th| ≤
          |(x : ℝ) - (xC : ℝ)| * 1 :=
            mul_le_mul_of_nonneg_left (Real.abs_cos_le_one th) (abs_nonneg _)
        _ = |(x : ℝ) - (xC : ℝ)| := mul_one _
    have h2 : |(y : ℝ) - (yC : ℝ)| * |Real.sin th| ≤ |(y : ℝ) - (yC : ℝ)| := by
      calc |(y : ℝ) - (yC : ℝ)| * |Real.sin th| ≤
          |(y : ℝ) - (yC : ℝ)| * 1 :=
            mul_le_mul_of_nonneg_left (Real.abs_sin_le_one th) (abs_nonneg _)
        _ = |(y : ℝ) - (yC : ℝ)| := mul_one _
    push_cast at h1 h2 ⊢
    linarith
  have habs : |((round z : ℤ) : ℝ)| ≤ |z| + 1 / 2 := by
    have h1 : |((round z : ℤ) : ℝ)| ≤ |((round z : ℤ) : ℝ) - z| + |z| := by
      calc |((round z : ℤ) : ℝ)| = |(((round z : ℤ) : ℝ) - z) + z| := by
            ring_nf
        _ ≤ |((round z : ℤ) : ℝ) - z| + |z| := abs_add _ _
    have h2 : |((round z : ℤ) : ℝ) - z| ≤ 1 / 2 := by
      rw [abs_sub_comm]
      exact abs_sub_round z
    linarith
  have hcast : ((|round z| : ℤ) : ℝ) < ((|x - xC| + |y - yC| : ℤ) : ℝ) + 1 := by
    rw [Int.cast_abs]
    calc (|((round z : ℤ) : ℝ)|) ≤ |z| + 1 / 2 := habs
      _ ≤ ((|x - xC| + |y - yC| : ℤ) : ℝ) + 1 / 2 := by linarith
      _ < ((|x - xC| + |y - yC| : ℤ) : ℝ) + 1 := by linarith
  have hfin : |round z| < |x - xC| + |y - yC| + 1 := by exact_mod_cast hcast
  omega

end MuonTrackSpec

namespace MuonTrackSpec

theorem walkDir_lengths (cfg : HCfg) (idx : ℕ) (rho theta : ℤ)
    (dir : Bool) :
    ∀ (fuel : ℕ) (i gap : ℤ) (s : WalkSt),
      (walkDir cfg idx rho theta dir fuel i gap s).data.length =
        s.data.length ∧
      (walkDir cfg idx rho theta dir fuel i gap s).coords.length =
        s.coords.length := by
  intro fuel
  induction fuel with
  | zero => intro i gap s; exact ⟨rfl, rfl⟩
  | succ fuel ih =>
    intro i gap s
    rw [walkDir]
    simp only []
    split_ifs <;>
      first
        | exact ⟨rfl, rfl⟩
        | exact ih _ _ _
        | (refine ⟨(ih _ _ _).1.trans ?_, (ih _ _ _).2.trans ?_⟩ <;>
           simp [List.length_set])

theorem walkDir_mem (cfg : HCfg) (idx : ℕ) (rho theta : ℤ) (dir : Bool) :
    ∀ (fuel : ℕ) (i gap : ℤ) (s : WalkSt),
      (∀ p ∈ (walkDir cfg idx rho theta dir fuel i gap s).coords,
        p ∈ s.coords ∨ p = []) ∧
      (∀ p ∈ (walkDir cfg idx rho theta dir fuel i gap s).data,
        p ∈ s.data ∨ p = []) := by
  intro fuel
  induction fuel with
  | zero => intro i gap s; exact ⟨fun p hp => Or.inl hp, fun p hp => Or.inl hp⟩
  | succ fuel ih =>
    intro i gap s
    rw [walkDir]
    simp only []
    split_ifs <;>
      first
        | exact ⟨fun p hp => Or.inl hp, fun p hp => Or.inl hp⟩
        | exact ih _ _ _
        | (constructor <;> intro p hp
           · rcases (ih _ _ _).1 p hp with hmem | hnil
             · rcases List.mem_or_eq_of_mem_set hmem with hmem2 | hnil2
               · exact Or.inl hmem2
               · exact Or.inr hnil2
             · exact Or.inr hnil
           · rcases (ih _ _ _).2 p hp with hmem | hnil
             · rcases List.mem_or_eq_of_mem_set hmem with hmem2 | hnil2
               · exact Or.inl hmem2
               · exact Or.inr hnil2
             · exact Or.inr hnil)

theorem walkDir_reads_up (cfg : HCfg) (idx : ℕ) (rho theta : ℤ) (n : ℕ) :
    ∀ (fuel : ℕ) (i gap : ℤ) (s : WalkSt),
      s.data.length = n →
      (idx : ℤ) + i < (n : ℤ) →
      (∀ q ∈ s.readLog, 0 ≤ q ∧ q < (n : ℤ)) →
      ∀ q ∈ (walkDir cfg idx rho theta true fuel i gap s).readLog,
        0 ≤ q ∧ q < (n : ℤ) := by
  intro fuel
  induction fuel with
  | zero => intro i gap s _ _ hlog; exact hlog
  | succ fuel ih =>
    intro i gap s hlen hi hlog
    rw [walkDir]
    simp only [eq_self_iff_true, and_self, if_true]
    split_ifs with h1 h2 h3 h4 h5 <;>
      first
        | exact hlog
        | (have hpos : 0 ≤ (idx : ℤ) + (i + 1) ∧
              (idx : ℤ) + (i + 1) < (n : ℤ) := by
             rw [hlen] at h2
             push_neg at h2
             omega
           first
             | (intro q hq
                rcases List.mem_append.mp hq with hold | hnew
                · exact hlog q hold
                · rw [List.mem_singleton.mp hnew]
                  exact hpos)
             | (refine ih _ _ _ (by simpa [List.length_set] using hlen)
                  (by omega) ?_
                intro q hq
                rcases List.mem_append.mp hq with hold | hnew
                · exact hlog q hold
                · rw [List.mem_singleton.mp hnew]
                  exact hpos))

theorem walkDir_reads_down (cfg : HCfg) (idx : ℕ) (rho theta : ℤ) (n : ℕ)
    (hidx : (idx : ℤ) < (n : ℤ)) :
    ∀ (fuel : ℕ) (i gap : ℤ) (s : WalkSt),
      s.data.length = n →
      (idx : ℤ) + i ≤ (idx : ℤ) →
      (∀ q ∈ s.readLog, 0 ≤ q ∧ q < (n : ℤ)) →
      ∀ q ∈ (walkDir cfg idx rho theta false fuel i gap s).readLog,
        0 ≤ q ∧ q < (n : ℤ) := by
  intro fuel
  induction fuel with
  | zero => intro i gap s _ _ hlog; exact hlog
  | succ fuel ih =>
    intro i gap s hlen hi hlog
    rw [walkDir]
    simp only [Bool.false_eq_true, if_false]
    split_ifs with h1 h2 h3 h4 h5 <;>
      first
        | exact hlog
        | (have hpos : 0 ≤ (idx : ℤ) + (i - 1) ∧
              (idx : ℤ) + (i - 1) < (n : ℤ) := by
             rw [hlen] at h2
             push_neg at h2
             omega
           first
             | (intro q hq
                rcases List.mem_append.mp hq with hold | hnew
                · exact hlog q hold
                · rw [List.mem_singleton.mp hnew]
                  exact hpos)
             | (refine ih _ _ _ (by simpa [List.length_set] using hlen)
                  (by omega) ?_
                intro q hq
                rcases List.mem_append.mp hq with hold | hnew
                · exact hlog q hold
                · rw [List.mem_singleton.mp hnew]
                  exact hpos))

end MuonTrackSpec

namespace MuonTrackSpec

theorem walkBoth_safe (cfg : HCfg) (idx : ℕ) (rho theta : ℤ)
    (coords data : List Pt) (n : ℕ) (hlen : data.length = n)
    (hidx : (idx : ℤ) < (n : ℤ)) :
    (∀ q ∈ (walkBoth cfg idx rho theta coords data).2.readLog,
      0 ≤ q ∧ q < (n : ℤ)) ∧
    (walkBoth cfg idx rho theta coords data).2.data.length = n ∧
    (walkBoth cfg idx rho theta coords data).2.coords.length =
      coords.length ∧
    (∀ p ∈ (walkBoth cfg idx rho theta coords data).2.coords,
      p ∈ coords ∨ p = []) ∧
    (∀ p ∈ (walkBoth cfg idx rho theta coords data).2.data,
      p ∈ data ∨ p = []) := by
  simp only [walkBoth]
  have h0len := walkDir_lengths cfg idx rho theta true (data.length + 1) 0 0
    { endpoint := [0, 0, 0, 0], coords := coords, data := data,
      lines_idx := [], readLog := [], consumed := [] }
  have h0reads := walkDir_reads_up cfg idx rho theta n (data.length + 1) 0 0
    { endpoint := [0, 0, 0, 0], coords := coords, data := data,
      lines_idx := [], readLog := [], consumed := [] }
    hlen (by omega) (fun q hq => absurd hq (List.not_mem_nil q))
  have h0mem := walkDir_mem cfg idx rho theta true (data.length + 1) 0 0
    { endpoint := [0, 0, 0, 0], coords := coords, data := data,
      lines_idx := [], readLog := [], consumed := [] }
  set w0 := walkDir cfg idx rho theta true (data.length + 1) 0 0
    { endpoint := [0, 0, 0, 0], coords := coords, data := data,
      lines_idx := [], readLog := [], consumed := [] } with hw0
  have h1len := walkDir_lengths cfg idx rho theta false (w0.data.length + 1)
    0 0
    { endpoint := [0, 0, 0, 0], coords := w0.coords, data := w0.data,
      lines_idx := w0.lines_idx, readLog := w0.readLog,
      consumed := w0.consumed }
  have h1reads := walkDir_reads_down cfg idx rho theta n hidx
    (w0.data.length + 1) 0 0
    { endpoint := [0, 0, 0, 0], coords := w0.coords, data := w0.data,
      lines_idx := w0.lines_idx, readLog := w0.readLog,
      consumed := w0.consumed }
    (h0len.1.trans hlen) (by omega) h0reads
  have h1mem := walkDir_mem cfg idx rho theta false (w0.data.length + 1) 0 0
    { endpoint := [0, 0, 0, 0], coords := w0.coords, data := w0.data,
      lines_idx := w0.lines_idx, readLog := w0.readLog,
      consumed := w0.consumed }
  refine ⟨h1reads, h1len.1.trans (h0len.1.trans hlen),
    h1len.2.trans h0len.2, ?_, ?_⟩
  · intro p hp
    rcases h1mem.1 p hp with hmem | hnil
    · exact h0mem.1 p hmem
    · exact Or.inr hnil
  · intro p hp
    rcases h1mem.2 p hp with hmem | hnil
    · exact h0mem.2 p hmem
    · exact Or.inr hnil

end MuonTrackSpec

namespace MuonTrackSpec

theorem votePass_rows (rhoFn : ℤ → ℤ → ℕ → ℤ) (threshold x y : ℤ)
    (accu : ℤ → ℕ → ℤ) :
    (votePass rhoFn threshold x y accu).rows =
      (List.range accuW).map (rhoFn x y) := by
  rw [votePass, voteGo_rows]
  simp

/-- Loop invariant of the main point loop for the safety claim: if every
live point of the bucket keeps `rhoFn` within the accumulator half-height
and the walk/vote logs are in bounds so far, they stay in bounds. -/
theorem houghLoop_safe (cfg : HCfg) (P : ℤ → ℤ → Prop)
    (hrho : ∀ x y : ℤ, P x y → ∀ j : ℕ, |cfg.rhoFn x y j| ≤ accuHalf)
    (n : ℕ) :
    ∀ (count : ℕ) (st : HState),
      st.data.length = n →
      st.coords.length = n →
      (∀ p ∈ st.coords, p = [] ∨ P (p.getD 0 0) (p.getD 1 0)) →
      (∀ q ∈ st.deaccu, P q.1 q.2) →
      (∀ r ∈ st.rowLog, |r| ≤ accuHalf) →
      (∀ q ∈ st.readLog, 0 ≤ q ∧ q < (n : ℤ)) →
      (∀ r ∈ (houghLoop cfg count st).rowLog, |r| ≤ accuHalf) ∧
      (∀ q ∈ (houghLoop cfg count st).readLog, 0 ≤ q ∧ q < (n : ℤ)) := by
  intro count
  induction count with
  | zero => intro st _ _ _ _ hrow hread; exact ⟨hrow, hread⟩
  | succ c ih =>
    intro st hdlen hclen hcoords hde hrow hread
    rw [houghLoop]
    simp only []
    by_cases hempty : st.coords.getD (cfg.rng (c + 1) % (c + 1)) [] = []
    · rw [if_pos hempty]
      exact ih st hdlen hclen hcoords hde hrow hread
    · rw [if_neg hempty]
      set idx := cfg.rng (c + 1) % (c + 1) with hidxdef
      set p := st.coords.getD idx [] with hpdef
      set x := p.getD 0 0 with hxdef
      set y := p.getD 1 0 with hydef
      set v := votePass cfg.rhoFn cfg.threshold x y st.accu with hvdef
      have hpmem : p ∈ st.coords := getD_mem_of_ne_nil _ _ hempty
      have hPp : P x y := by
        rcases hcoords p hpmem with hnil | hP
        · exact absurd hnil hempty
        · exact hP
      have hidxlt : idx < st.coords.length := by
        rcases Nat.lt_or_ge idx st.coords.length with h | h
        · exact h
        · exact absurd (List.getD_eq_default _ _ h) hempty
      have hrowsv : ∀ r ∈ v.rows, |r| ≤ accuHalf := by
        intro r hr
        rw [hvdef, votePass_rows] at hr
        obtain ⟨j, _, hj⟩ := List.mem_map.mp hr
        rw [← hj]
        exact hrho x y hPp j
      have hrownew : ∀ r ∈ st.rowLog ++ v.rows, |r| ≤ accuHalf := by
        intro r hr
        rcases List.mem_append.mp hr with h | h
        · exact hrow r h
        · exact hrowsv r h
      have hdenew : ∀ q ∈ st.deaccu ++ [(x, y)], P q.1 q.2 := by
        intro q hq
        rcases List.mem_append.mp hq with h | h
        · exact hde q h
        · rw [List.mem_singleton.mp h]
          exact hPp
      by_cases hmax : v.maxv < cfg.threshold
      · rw [if_pos hmax]
        refine ih _ hdlen ?_ ?_ hdenew hrownew hread
        · simpa [List.length_set] using hclen
        · intro q hq
          rcases List.mem_or_eq_of_mem_set hq with hmem | hnil
          · exact hcoords q hmem
          · exact Or.inl hnil
      · rw [if_neg hmax]
        have hidxn : (idx : ℤ) < (n : ℤ) := by omega
        obtain ⟨hwreads, hwdlen, hwclen, hwcmem, hwdmem⟩ :=
          walkBoth_safe cfg idx v.rho v.theta st.coords st.data n hdlen hidxn
        have hu := unvotePass_inv cfg.rhoFn cfg.yFn cfg.range v.rho v.theta
          (st.deaccu ++ [(x, y)]) v.accu
        have hde3 : ∀ q ∈ (unvotePass cfg.rhoFn cfg.yFn cfg.range v.rho
            v.theta (st.deaccu ++ [(x, y)]) v.accu).deaccu, P q.1 q.2 :=
          fun q hq => hdenew q (hu.1 q hq)
        have hrow3 : ∀ r ∈ (st.rowLog ++ v.rows) ++
            (unvotePass cfg.rhoFn cfg.yFn cfg.range v.rho v.theta
              (st.deaccu ++ [(x, y)]) v.accu).rows, |r| ≤ accuHalf := by
          intro r hr
          rcases List.mem_append.mp hr with h | h
          · exact hrownew r h
          · obtain ⟨q, hq, j, hj⟩ := hu.2 r h
            rw [hj]
            exact hrho q.1 q.2 (hdenew q hq) j
        have hread3 : ∀ q ∈ st.readLog ++
            (walkBoth cfg idx v.rho v.theta st.coords st.data).2.readLog,
            0 ≤ q ∧ q < (n : ℤ) := by
          intro q hq
          rcases List.mem_append.mp hq with h | h
          · exact hread q h
          · exact hwreads q h
        have hcmem3 : ∀ r ∈
            (walkBoth cfg idx v.rho v.theta st.coords st.data).2.coords,
            r = [] ∨ P (r.getD 0 0) (r.getD 1 0) := by
          intro r hr
          rcases hwcmem r hr with hmem | hnil
          · exact hcoords r hmem
          · exact Or.inl hnil
        have hclen3 :
            (walkBoth cfg idx v.rho v.theta st.coords st.data).2.coords.length
              = n := hwclen.trans hclen
        split_ifs with hsent <;>
          exact ih _ hwdlen hclen3 hcmem3 hde3 hrow3 hread3

end MuonTrackSpec

namespace MuonTrackSpec

/-- With the source's trigonometric kernel, the accumulator row the vote
pass dereferences for the point `(1, 1000000)` at theta bin `j = 90`
(where `sin` is essentially 1) exceeds the accumulator half-height
`2750`, i.e. `adata[r]` is an out-of-bounds access. -/
theorem c6_row_big {rhoFn : ℤ → ℤ → ℕ → ℤ} (h : RhoSpec rhoFn) :
    (2750 : ℤ) < rhoFn 1 1000000 90 := by
  rw [h 1 1000000 90]
  set th : ℝ := ((90 : ℕ) : ℝ) * (PIcQ : ℝ) / 180 with hthdef
  have hP : ((PIcQ : ℚ) : ℝ) = 3.14159265 := by
    rw [PIcQ]
    push_cast
    norm_num
  have hθ : th = ((PIcQ : ℚ) : ℝ) / 2 := by
    rw [hthdef]
    push_cast
    ring
  have hd_abs : |Real.pi / 2 - th| ≤ 1 / 1000000 := by
    have h1 := Real.pi_gt_d6
    have h2 := Real.pi_lt_d6
    rw [hθ, hP, abs_le]
    constructor <;> linarith
  have hcos : |Real.cos th| ≤ 1 / 1000000 := by
    rw [← Real.sin_pi_div_two_sub]
    exact Real.abs_sin_le_abs.trans hd_abs
  have hsin : 1 - 1 / 1000000 ≤ Real.sin th := by
    rw [← Real.cos_pi_div_two_sub]
    have h1 : 1 - (Real.pi / 2 - th) ^ 2 / 2 ≤ Real.cos (Real.pi / 2 - th) :=
      Real.one_sub_sq_div_two_le_cos
    have h2 : (Real.pi / 2 - th) ^ 2 ≤ (1 / 1000000) ^ 2 := by
      have hab := abs_le.mp hd_abs
      exact sq_le_sq' hab.1 hab.2
    nlinarith
  have hcos' := abs_le.mp hcos
  have hround : (2751 : ℤ) ≤ round ((((1 : ℤ) : ℝ) - (xC : ℝ)) * Real.cos th +
      (((1000000 : ℤ) : ℝ) - (yC : ℝ)) * Real.sin th) := by
    rw [round_eq, Int.le_floor]
    have hx : (((1 : ℤ) : ℝ) - (xC : ℝ)) = -999 := by norm_num [xC]
    have hy : (((1000000 : ℤ) : ℝ) - (yC : ℝ)) = 998250 := by norm_num [yC]
    rw [hx, hy]
    push_cast
    linarith
  exact lt_of_lt_of_le (by norm_num) hround

end MuonTrackSpec

namespace MuonTrackSpec

/-- Counterexample to claim C6.  With the source's trigonometric kernels
and the bucket `[[1, 1000000, 0]]` (one hit with a large peak time), the
very first vote pass dereferences an accumulator row of about `998248`,
far beyond the allocated half-height `2750`: the claim that every
`(rho, theta)` vote-accumulator access stays within bounds is false —
the row index is never bounds-checked against the accumulator size. -/
theorem c6_counterexample :
    ∃ r ∈ (Hough
        (fun x y j => round (((x : ℝ) - (xC : ℝ)) *
            Real.cos ((j : ℝ) * (PIcQ : ℝ) / 180) +
          ((y : ℝ) - (yC : ℝ)) * Real.sin ((j : ℝ) * (PIcQ : ℝ) / 180)))
        (fun rho theta x1 => round (((rho : ℝ) -
            ((x1 : ℝ) - (xC : ℝ)) *
              Real.cos ((theta : ℝ) * (PIcQ : ℝ) / 180)) /
            Real.sin ((theta : ℝ) * (PIcQ : ℝ) / 180) + (yC : ℝ)))
        (fun _ => 0) [[1, 1000000, 0]] [5, 30, 100, 500, 2500] true).rowLog,
      accuHalf < |r| := by
  have h := houghLoop_one_clear
    { rhoFn := fun x y j => round (((x : ℝ) - (xC : ℝ)) *
          Real.cos ((j : ℝ) * (PIcQ : ℝ) / 180) +
        ((y : ℝ) - (yC : ℝ)) * Real.sin ((j : ℝ) * (PIcQ : ℝ) / 180)),
      yFn := fun rho theta x1 => round (((rho : ℝ) -
          ((x1 : ℝ) - (xC : ℝ)) *
            Real.cos ((theta : ℝ) * (PIcQ : ℝ) / 180)) /
          Real.sin ((theta : ℝ) * (PIcQ : ℝ) / 180) + (yC : ℝ)),
      rng := fun _ => 0,
      threshold := ([5, 30, 100, 500, 2500] : List ℤ).getD 0 0,
      max_gap := ([5, 30, 100, 500, 2500] : List ℤ).getD 1 0,
      range := ([5, 30, 100, 500, 2500] : List ℤ).getD 2 0,
      save_hits := true }
    { coords := [[1, 1000000, 0]], data := [[1, 1000000, 0]],
      accu := fun _ _ => 0, deaccu := [], outlines := [], outhits := [],
      rowLog := [], readLog := [], clearedSeeds := [], consumed := [] }
    (by decide) (fun _ _ => le_rfl) (by decide)
  have hrr : RhoSpec (fun x y j => round (((x : ℝ) - (xC : ℝ)) *
      Real.cos ((j : ℝ) * (PIcQ : ℝ) / 180) +
      ((y : ℝ) - (yC : ℝ)) * Real.sin ((j : ℝ) * (PIcQ : ℝ) / 180))) :=
    fun x y j => rfl
  simp only [Hough, List.length_cons, List.length_nil, Nat.zero_add]
  rw [h.2]
  simp only [List.nil_append, List.getD_cons_zero, List.getD_cons_succ]
  refine ⟨_, List.mem_map_of_mem _
    (List.mem_range.mpr (show 90 < accuW by decide)), ?_⟩
  exact lt_of_lt_of_le (c6_row_big hrr) (le_abs_self _)

end MuonTrackSpec

namespace MuonTrackSpec

/-- Claim C6 (amended).  For a `Hough` call whose row kernel is the
source's `round((x-x_c)*cos(j*PI/accu_w) + (y-y_c)*sin(j*PI/accu_w))`
and whose live bucket points all satisfy
`|x - x_c| + |y - y_c| ≤ 2750`, every accumulator row the vote and
un-vote passes dereference is within the allocated half-height `2750`,
and every point index the corridor walks read is within the bucket:
index arithmetic of the walk is bounds-checked by the code, but the
accumulator row is safe only under this domain condition on the hits
(the counterexample shows it is not checked). -/
theorem c6_amended (rhoFn : ℤ → ℤ → ℕ → ℤ) (yFn : ℤ → ℤ → ℤ → ℤ)
    (rng : ℕ → ℕ) (coords : List Pt) (param : List ℤ) (save : Bool)
    (hrho : RhoSpec rhoFn)
    (hdom : ∀ p ∈ coords, p = [] ∨
      |p.getD 0 0 - xC| + |p.getD 1 0 - yC| ≤ accuHalf) :
    (∀ r ∈ (Hough rhoFn yFn rng coords param save).rowLog,
      |r| ≤ accuHalf) ∧
    (∀ q ∈ (Hough rhoFn yFn rng coords param save).readLog,
      0 ≤ q ∧ q < (coords.length : ℤ)) := by
  have h := houghLoop_safe
    { rhoFn := rhoFn, yFn := yFn, rng := rng, threshold := param.getD 0 0,
      max_gap := param.getD 1 0, range := param.getD 2 0, save_hits := save }
    (fun x y => |x - xC| + |y - yC| ≤ accuHalf)
    (fun x y hP j => (rhoSpec_bound hrho x y j).trans hP)
    coords.length coords.length
    { coords := coords, data := coords, accu := fun _ _ => 0, deaccu := [],
      outlines := [], outhits := [], rowLog := [], readLog := [],
      clearedSeeds := [], consumed := [] }
    rfl rfl hdom
    (fun q hq => absurd hq (List.not_mem_nil q))
    (fun r hr => absurd hr (List.not_mem_nil r))
    (fun q hq => absurd hq (List.not_mem_nil q))
  simpa only [Hough] using h

end MuonTrackSpec

namespace MuonTrackSpec

theorem c6_amended_witness :
    (RhoSpec (fun x y j => round (((x : ℝ) - (xC : ℝ)) *
        Real.cos ((j : ℝ) * (PIcQ : ℝ) / 180) +
      ((y : ℝ) - (yC : ℝ)) * Real.sin ((j : ℝ) * (PIcQ : ℝ) / 180))) ∧
     (∀ p ∈ ([[1000, 1750, 0]] : List Pt), p = [] ∨
       |p.getD 0 0 - xC| + |p.getD 1 0 - yC| ≤ accuHalf)) ∧
    (∀ r ∈ (Hough
        (fun x y j => round (((x : ℝ) - (xC : ℝ)) *
            Real.cos ((j : ℝ) * (PIcQ : ℝ) / 180) +
          ((y : ℝ) - (yC : ℝ)) * Real.sin ((j : ℝ) * (PIcQ : ℝ) / 180)))
        (fun rho theta x1 => round (((rho : ℝ) -
            ((x1 : ℝ) - (xC : ℝ)) *
              Real.cos ((theta : ℝ) * (PIcQ : ℝ) / 180)) /
            Real.sin ((theta : ℝ) * (PIcQ : ℝ) / 180) + (yC : ℝ)))
        (fun _ => 0) [[1000, 1750, 0]] [2, 30, 100, 500, 2500] true).rowLog,
      |r| ≤ accuHalf) ∧
    (∀ q ∈ (Hough
        (fun x y j => round (((x : ℝ) - (xC : ℝ)) *
            Real.cos ((j : ℝ) * (PIcQ : ℝ) / 180) +
          ((y : ℝ) - (yC : ℝ)) * Real.sin ((j : ℝ) * (PIcQ : ℝ) / 180)))
        (fun rho theta x1 => round (((rho : ℝ) -
            ((x1 : ℝ) - (xC : ℝ)) *
              Real.cos ((theta : ℝ) * (PIcQ : ℝ) / 180)) /
            Real.sin ((theta : ℝ) * (PIcQ : ℝ) / 180) + (yC : ℝ)))
        (fun _ => 0) [[1000, 1750, 0]] [2, 30, 100, 500, 2500] true).readLog,
      0 ≤ q ∧ q < (([[1000, 1750, 0]] : List Pt).length : ℤ)) :=
  ⟨⟨fun x y j => rfl, by decide⟩,
   c6_amended
     (fun x y j => round (((x : ℝ) - (xC : ℝ)) *
         Real.cos ((j : ℝ) * (PIcQ : ℝ) / 180) +
       ((y : ℝ) - (yC : ℝ)) * Real.sin ((j : ℝ) * (PIcQ : ℝ) / 180)))
     (fun rho theta x1 => round (((rho : ℝ) -
         ((x1 : ℝ) - (xC : ℝ)) *
           Real.cos ((theta : ℝ) * (PIcQ : ℝ) / 180)) /
         Real.sin ((theta : ℝ) * (PIcQ : ℝ) / 180) + (yC : ℝ)))
     (fun _ => 0) [[1000, 1750, 0]] [2, 30, 100, 500, 2500] true
     (fun x y j => rfl) (by decide)⟩

end MuonTrackSpec
